import Mathlib

/-!
Verification of the go-web repository specification.

This file shallowly embeds the algorithmic core of the go-web HTTP routing
and documentation framework in Lean 4 and settles the frozen claims about it:

* the reflective struct-to-OpenAPI Schema Factory
  (router/docs/swagger/FactoryStructToSchema.go), including its memoized,
  cycle-safe recursion and tag-driven field naming;
* the OpenAPI 3 documentation viewer's response merging
  (router/docs/swagger/OpenAPI3Viewer.go);
* the router dispatch pipeline: context construction, handler lookup,
  success/error/panic resolution, and the Fallback/Validate combinators;
* the Result value type and its constructors (router/result/Result.go);
* the body-reading helpers with size limits (InputBytesWithOpts and related).

Go maps are modelled as association lists whose `putAssoc` operation
replaces the first binding of an existing key (Go map assignment semantics);
map iteration order, which Go leaves unspecified, is fixed to list order.
Recursive reflective walks are modelled with an explicit fuel parameter;
running out of fuel yields `none`.  Termination of the Go code corresponds
to the existence of sufficient fuel, which is proved.
-/

set_option autoImplicit false
set_option linter.unusedSectionVars false

universe u v

/-! ## Association lists with Go-map update semantics -/

section AssocToolkit

variable {α : Type u} {β : Type v} [DecidableEq α]

/-- Lookup of the first binding of a key, mirroring Go map access `m[k]`. -/
def lookupA : List (α × β) → α → Option β
  | [], _ => none
  | (k, v) :: t, a => if k = a then some v else lookupA t a

/-- Go map assignment `m[k] = v`: replace the binding if the key is present,
append it otherwise. -/
def putAssoc : List (α × β) → α → β → List (α × β)
  | [], a, b => [(a, b)]
  | (k, v) :: t, a, b => if k = a then (a, b) :: t else (k, v) :: putAssoc t a b

/-- Keys of an association list. -/
def keysA (l : List (α × β)) : List α := l.map Prod.fst

/-- Key membership as a Bool. -/
def hasKeyA (l : List (α × β)) (a : α) : Bool :=
  (lookupA l a).isSome

/-- `maps.Copy(dst, src)`: copy every binding of `src` into `dst`,
overwriting bindings whose key is already present. -/
def mapsCopy (dst src : List (α × β)) : List (α × β) :=
  src.foldl (fun d p => putAssoc d p.1 p.2) dst

/-- First-match-wins choice on options. -/
def orD (a b : Option β) : Option β :=
  match a with
  | some v => some v
  | none => b

/-- All keys distinct; holds for every list built from `[]` by `putAssoc`. -/
def NodupKeys (l : List (α × β)) : Prop := (keysA l).Nodup

@[simp] theorem lookupA_nil (a : α) : lookupA ([] : List (α × β)) a = none := rfl

@[simp] theorem lookupA_cons (k : α) (v : β) (t : List (α × β)) (a : α) :
    lookupA ((k, v) :: t) a = if k = a then some v else lookupA t a := rfl

@[simp] theorem putAssoc_nil (a : α) (b : β) :
    putAssoc ([] : List (α × β)) a b = [(a, b)] := rfl

@[simp] theorem putAssoc_cons (k : α) (v : β) (t : List (α × β)) (a : α) (b : β) :
    putAssoc ((k, v) :: t) a b =
      if k = a then (a, b) :: t else (k, v) :: putAssoc t a b := rfl

@[simp] theorem keysA_nil : keysA ([] : List (α × β)) = [] := rfl

@[simp] theorem keysA_cons (p : α × β) (t : List (α × β)) :
    keysA (p :: t) = p.1 :: keysA t := rfl

@[simp] theorem orD_some (v : β) (b : Option β) : orD (some v) b = some v := rfl

@[simp] theorem orD_none (b : Option β) : orD none b = b := rfl

@[simp] theorem mapsCopy_nil (dst : List (α × β)) : mapsCopy dst [] = dst := rfl

theorem mapsCopy_cons (dst : List (α × β)) (p : α × β) (t : List (α × β)) :
    mapsCopy dst (p :: t) = mapsCopy (putAssoc dst p.1 p.2) t := rfl

theorem lookupA_putAssoc (l : List (α × β)) (a x : α) (b : β) :
    lookupA (putAssoc l a b) x = if x = a then some b else lookupA l x := by
  induction l with
  | nil =>
    by_cases h : x = a
    · simp [h]
    · have h' : ¬(a = x) := fun hh => h hh.symm
      simp [h, h']
  | cons p t ih =>
    obtain ⟨k, v⟩ := p
    by_cases hk : k = a
    · subst hk
      by_cases hx : x = k
      · simp [hx]
      · have hx' : ¬(k = x) := fun hh => hx hh.symm
        simp [hx, hx']
    · by_cases hx : k = x
      · subst hx
        simp [hk]
      · by_cases hxa : x = a
        · subst hxa
          simp [hk, hx, ih]
        · simp [hk, hx, hxa, ih]

theorem hasKeyA_putAssoc (l : List (α × β)) (a x : α) (b : β) :
    hasKeyA (putAssoc l a b) x = (hasKeyA l x || decide (x = a)) := by
  unfold hasKeyA
  rw [lookupA_putAssoc]
  by_cases h : x = a
  · simp [h]
  · simp [h]

theorem lookupA_mem {l : List (α × β)} {a : α} {v : β} :
    lookupA l a = some v → (a, v) ∈ l := by
  induction l with
  | nil => intro h; exact absurd h (by simp)
  | cons p t ih =>
    obtain ⟨k, w⟩ := p
    intro h
    by_cases hk : k = a
    · rw [lookupA_cons, if_pos hk] at h
      injection h with h2
      subst h2
      subst hk
      exact List.mem_cons_self _ _
    · rw [lookupA_cons, if_neg hk] at h
      exact List.mem_cons_of_mem _ (ih h)

theorem mem_lookupA_isSome {l : List (α × β)} {a : α} {v : β} :
    (a, v) ∈ l → (lookupA l a).isSome = true := by
  induction l with
  | nil => intro h; exact absurd h (List.not_mem_nil _)
  | cons p t ih =>
    obtain ⟨k, w⟩ := p
    intro h
    by_cases hk : k = a
    · simp [hk]
    · rw [lookupA_cons, if_neg hk]
      rcases List.mem_cons.mp h with h1 | h2
      · exact absurd (congrArg Prod.fst h1).symm hk
      · exact ih h2

theorem lookupA_eq_none_iff {l : List (α × β)} {a : α} :
    lookupA l a = none ↔ a ∉ keysA l := by
  induction l with
  | nil => simp
  | cons p t ih =>
    obtain ⟨k, w⟩ := p
    by_cases hk : k = a
    · subst hk; simp
    · simp only [lookupA_cons, if_neg hk, keysA_cons, List.mem_cons, not_or]
      rw [ih]
      constructor
      · intro h
        exact ⟨fun hh => hk hh.symm, h⟩
      · intro h
        exact h.2

theorem lookupA_eq_none_of_not_mem_keys {l : List (α × β)} {a : α}
    (h : a ∉ keysA l) : lookupA l a = none :=
  lookupA_eq_none_iff.mpr h

theorem keysA_putAssoc_of_mem (l : List (α × β)) (a : α) (b : β)
    (h : a ∈ keysA l) : keysA (putAssoc l a b) = keysA l := by
  induction l with
  | nil => simp at h
  | cons p t ih =>
    obtain ⟨k, v⟩ := p
    by_cases hk : k = a
    · subst hk; simp
    · simp only [keysA_cons, List.mem_cons] at h
      rcases h with h | h
      · exact absurd h.symm hk
      · simp [hk, ih h]

theorem keysA_putAssoc_of_not_mem (l : List (α × β)) (a : α) (b : β)
    (h : a ∉ keysA l) : keysA (putAssoc l a b) = keysA l ++ [a] := by
  induction l with
  | nil => simp
  | cons p t ih =>
    obtain ⟨k, v⟩ := p
    simp only [keysA_cons, List.mem_cons, not_or] at h
    have hk : ¬(k = a) := fun hh => h.1 hh.symm
    simp [hk, ih h.2]

theorem nodupKeys_putAssoc {l : List (α × β)} (a : α) (b : β)
    (h : NodupKeys l) : NodupKeys (putAssoc l a b) := by
  by_cases hm : a ∈ keysA l
  · unfold NodupKeys
    rw [keysA_putAssoc_of_mem l a b hm]
    exact h
  · unfold NodupKeys
    rw [keysA_putAssoc_of_not_mem l a b hm]
    simpa [List.nodup_append] using ⟨h, fun hx => hm hx⟩

theorem nodupKeys_mapsCopy {dst : List (α × β)} (src : List (α × β))
    (h : NodupKeys dst) : NodupKeys (mapsCopy dst src) := by
  induction src generalizing dst with
  | nil => exact h
  | cons p t ih =>
    rw [mapsCopy_cons]
    exact ih (nodupKeys_putAssoc p.1 p.2 h)

theorem lookupA_mapsCopy (dst src : List (α × β)) (x : α)
    (hsrc : NodupKeys src) :
    lookupA (mapsCopy dst src) x = orD (lookupA src x) (lookupA dst x) := by
  induction src generalizing dst with
  | nil => simp
  | cons p t ih =>
    obtain ⟨a, b⟩ := p
    have hsrc' : (a :: keysA t).Nodup := hsrc
    have ht : NodupKeys t := (List.nodup_cons.mp hsrc').2
    have ha : a ∉ keysA t := (List.nodup_cons.mp hsrc').1
    rw [mapsCopy_cons, ih (putAssoc dst a b) ht]
    by_cases hx : x = a
    · subst hx
      rw [lookupA_eq_none_of_not_mem_keys ha, lookupA_putAssoc]
      simp
    · rw [lookupA_putAssoc, if_neg hx, lookupA_cons,
        if_neg (fun hh : a = x => hx hh.symm)]

theorem countP_eq_zero_of_not_mem_keys {l : List (α × β)} {a : α}
    (h : a ∉ keysA l) : l.countP (fun p => decide (p.1 = a)) = 0 := by
  induction l with
  | nil => simp
  | cons p t ih =>
    simp only [keysA_cons, List.mem_cons, not_or] at h
    have h1 : ¬(p.1 = a) := fun hh => h.1 hh.symm
    rw [List.countP_cons]
    simp [h1, ih h.2]

theorem countP_le_one_of_nodupKeys {l : List (α × β)} (a : α)
    (h : NodupKeys l) : l.countP (fun p => decide (p.1 = a)) ≤ 1 := by
  induction l with
  | nil => simp
  | cons p t ih =>
    have h' : (p.1 :: keysA t).Nodup := h
    have ht : NodupKeys t := (List.nodup_cons.mp h').2
    have hp : p.1 ∉ keysA t := (List.nodup_cons.mp h').1
    rw [List.countP_cons]
    by_cases hx : p.1 = a
    · have hz : t.countP (fun q => decide (q.1 = a)) = 0 :=
        countP_eq_zero_of_not_mem_keys (hx ▸ hp)
      simp [hx, hz]
    · simp [hx]
      exact ih ht

theorem countP_pos_of_lookupA_isSome {l : List (α × β)} {a : α}
    (h : (lookupA l a).isSome = true) :
    1 ≤ l.countP (fun p => decide (p.1 = a)) := by
  obtain ⟨w, hw⟩ := Option.isSome_iff_exists.mp h
  have hmem := lookupA_mem hw
  have hpos : 0 < l.countP (fun p => decide (p.1 = a)) :=
    List.countP_pos_iff.mpr ⟨(a, w), hmem, by simp⟩
  omega

theorem countP_eq_one_of_nodup_lookup {l : List (α × β)} {a : α}
    (hnd : NodupKeys l) (h : (lookupA l a).isSome = true) :
    l.countP (fun p => decide (p.1 = a)) = 1 :=
  Nat.le_antisymm (countP_le_one_of_nodupKeys a hnd) (countP_pos_of_lookupA_isSome h)

end AssocToolkit

/-! ## Computable string helpers

The Go sources use `strings.Split`, `strings.Contains` and
`strings.HasPrefix`.  The corresponding `String` functions of the Lean
core library do not reduce inside the kernel, so the same operations are
implemented here on the underlying character lists. -/

/-- Characters before the first occurrence of a separator (the whole list
when the separator does not occur): `strings.Split(s, sep)[0]`. -/
def takeUntil (sep : Char) : List Char → List Char
  | [] => []
  | c :: t => if c = sep then [] else c :: takeUntil sep t

/-- Characters after the first occurrence of a separator, or `none` when
the separator does not occur. -/
def afterSep (sep : Char) : List Char → Option (List Char)
  | [] => none
  | c :: t => if c = sep then some t else afterSep sep t

/-- The segment after the last separator:
`strings.Split(s, sep)[len-1]`. -/
def lastSegGo (sep : Char) : List Char → List Char → List Char
  | [], acc => acc.reverse
  | c :: t, acc => if c = sep then lastSegGo sep t [] else lastSegGo sep t (c :: acc)

/-- Substring search on character lists: `strings.Contains`. -/
def listContainsSub : List Char → List Char → Bool
  | [], needle => needle.isEmpty
  | hay@(_ :: t), needle => needle.isPrefixOf hay || listContainsSub t needle

/-- `strings.HasPrefix(s, pre)`. -/
def goHasPre (s pre : String) : Bool :=
  pre.data.isPrefixOf s.data

/-! ## The Schema Factory (router/docs/swagger/FactoryStructToSchema.go)

Go runtime types relevant to the factory are embedded as `GoType`: the
non-aggregate kinds the factory distinguishes, the pointer/slice/array/map
wrappers, and named struct types referenced by an identifier into an
environment `Env` mapping identifiers to struct definitions (this mirrors
`reflect.Type` identity, under which recursive types form cycles). -/

namespace Swagger

/-- A Go runtime type as seen through the reflection kinds used by the
factory: `int` covers all integer kinds mapped to "integer", `float` the
float kinds, `other` every kind the factory defaults to "string". -/
inductive GoType where
  | str
  | boolean
  | int
  | float
  | other
  | ptr (t : GoType)
  | slice (t : GoType)
  | array (t : GoType)
  | mapv (value : GoType)
  | struct (id : Nat)
deriving DecidableEq, Repr

/-- A struct field as seen by reflection: name, anonymous flag, the parsed
struct tag (key/value pairs, `Tag.Get` semantics), the field type, and
whether the field's type is the reserved `xml.Name` marker type. -/
structure GoField where
  name : String
  anonymous : Bool
  tags : List (String × String)
  ftype : GoType
  isXmlName : Bool
deriving DecidableEq, Repr

/-- A struct definition: `reflect.Type.Name()` (empty for anonymous
structs), `PkgPath()`, and the ordered field list. -/
structure StructDef where
  name : String
  pkgPath : String
  fields : List GoField
deriving DecidableEq, Repr

/-- The environment resolving struct identifiers, total like `reflect`. -/
abbrev Env := Nat → StructDef

/-- The `docs.MediaType` string constants. -/
def jsonMedia : String := "application/json"

/-- The `docs.MediaType` string constant for XML. -/
def xmlMedia : String := "application/xml"

/-- The `XML` annotation object attached to schemas (name, attribute,
wrapped; namespace and prefix fields are never set by the factory).
The attribute flag is called `attrFlag` because its Go name is a Lean
keyword. -/
structure XMLInfo where
  name : String
  attrFlag : Bool
  wrapped : Bool
deriving DecidableEq, Repr

/-- An OpenAPI `Schema` node with exactly the fields the factory writes:
$ref, type, format, description, properties, items, required,
additionalProperties and the XML annotation. -/
inductive Schema where
  | mk (ref ty format descr : String)
      (props : List (String × Schema))
      (items : Option Schema)
      (required : List String)
      (addProps : Option Schema)
      (xmlinfo : Option XMLInfo)

/-- The `$ref` field of a schema. -/
def Schema.ref : Schema → String
  | .mk r _ _ _ _ _ _ _ _ => r

/-- The `type` field of a schema. -/
def Schema.ty : Schema → String
  | .mk _ t _ _ _ _ _ _ _ => t

/-- The `description` field of a schema. -/
def Schema.descr : Schema → String
  | .mk _ _ _ d _ _ _ _ _ => d

/-- The `properties` map of a schema. -/
def Schema.props : Schema → List (String × Schema)
  | .mk _ _ _ _ p _ _ _ _ => p

/-- The `items` field of a schema. -/
def Schema.items : Schema → Option Schema
  | .mk _ _ _ _ _ i _ _ _ => i

/-- The `required` array of a schema. -/
def Schema.required : Schema → List String
  | .mk _ _ _ _ _ _ r _ _ => r

/-- The `additionalProperties` field of a schema. -/
def Schema.addProps : Schema → Option Schema
  | .mk _ _ _ _ _ _ _ a _ => a

/-- The `xml` annotation of a schema. -/
def Schema.xmlinfo : Schema → Option XMLInfo
  | .mk _ _ _ _ _ _ _ _ x => x

/-- The zero value `Schema{}`: every field empty. -/
def zeroSchema : Schema := .mk "" "" "" "" [] none [] none none

/-- `NewSchema()`: type "object" with empty (non-nil) properties/required. -/
def newSchema : Schema := .mk "" "object" "" "" [] none [] none none

/-- A schema holding only a primitive type name, e.g. `{Type: "string"}`. -/
def typeSchema (t : String) : Schema := .mk "" t "" "" [] none [] none none

/-- `&Schema{Ref: ref}`. -/
def refSchema (r : String) : Schema := .mk r "" "" "" [] none [] none none

/-- `&Schema{Items: &Schema{Ref: ref}}` (vector wrapping of a $ref). -/
def itemsRefSchema (r : String) : Schema :=
  .mk "" "" "" "" [] (some (refSchema r)) [] none none

/-- `&Schema{Type: "array", Items: item}`. -/
def arraySchema (item : Schema) : Schema :=
  .mk "" "array" "" "" [] (some item) [] none none

/-- `&Schema{Type: "object", AdditionalProperties: value}`. -/
def mapSchema (value : Schema) : Schema :=
  .mk "" "object" "" "" [] none [] (some value) none

/-- Set the description field (`ref.Description = ...`, unconditional). -/
def setDescription : Schema → String → Schema
  | .mk r t f _ p i rq a x, d => .mk r t f d p i rq a x

/-- Set the XML annotation (`ref.XML = &XML{...}`). -/
def setXmlInfo : Schema → XMLInfo → Schema
  | .mk r t f d p i rq a _, x => .mk r t f d p i rq a (some x)

/-- Wrap a schema in a synthetic object with a single named property,
used for the `>` wrapper of XML tags. -/
def objectWrap (wrapper : String) (inner : Schema) : Schema :=
  .mk "" "object" "" "" [(wrapper, inner)] none [] none none

/-- The per-(type, media) memo record `seen{ref, name, schema}`. -/
structure SeenEntry where
  ref : String
  name : String
  schema : Schema

/-- The factory state: the memo table `seen`, keyed by type identity and
media type (Go's nested `map[reflect.Type]map[docs.MediaType]seen` is
flattened to a single association list keyed by the pair). -/
abbrev Factory := List ((Nat × String) × SeenEntry)

/-- `NewFactoryStructToSchema()`: empty memo. -/
def emptyFactory : Factory := []

/-- Memo lookup `f.seen[t][media]`. -/
def lookupSeen (f : Factory) (id : Nat) (media : String) : Option SeenEntry :=
  lookupA f (id, media)

/-- `putSeen`: store the record under (type, media). -/
def putSeen (f : Factory) (id : Nat) (media : String) (e : SeenEntry) : Factory :=
  putAssoc f (id, media) e

/-- `Tag.Get(key)`: the tag value for a key, empty when absent. -/
def tagGet (tags : List (String × String)) (key : String) : String :=
  (lookupA tags key).getD ""

/-- `strings.Split(s, ",")[0]`. -/
def firstSeg (s : String) : String :=
  String.mk (takeUntil ',' s.data)

/-- `strings.Contains(hay, needle)`. -/
def containsSub (hay needle : String) : Bool :=
  listContainsSub hay.data needle.data

/-- `isVector`: slice or array kind. -/
def isVector : GoType → Bool
  | .slice _ => true
  | .array _ => true
  | _ => false

/-- `deferencePointer` (sic): strip pointer/slice/array wrappers. -/
def deferencePointer : GoType → GoType
  | .ptr t => deferencePointer t
  | .slice t => deferencePointer t
  | .array t => deferencePointer t
  | t => t

/-- The struct identifier of a type, when its kind is Struct. -/
def structId? : GoType → Option Nat
  | .struct id => some id
  | _ => none

/-- `canBeRequired`: not a pointer, slice, or map kind. -/
def canBeRequired (fld : GoField) : Bool :=
  match fld.ftype with
  | .ptr _ => false
  | .slice _ => false
  | .mapv _ => false
  | _ => true

/-- Models `cases.Title(language.Und, cases.NoLower)` on the single
identifier-like words the factory feeds it (media word, package base name,
type name): upper-case the first character, leave the rest. -/
def titleNoLower (s : String) : String :=
  match s.data with
  | [] => s
  | c :: rest => String.mk (c.toUpper :: rest)

/-- `makeMediaName`: `{MediaTitle}_{PackageTitle}_{TypeTitle}`, with the
media word mapped from the MIME constants ("" for unknown media, in which
case no title-casing is applied, exactly as in the source). -/
def makeMediaName (media pkg name : String) : String :=
  let mediaWord : String :=
    if media = xmlMedia then "xml"
    else if media = jsonMedia then "json"
    else ""
  let pkgFormat := String.mk (lastSegGo '/' pkg.data [])
  if mediaWord = "" then
    mediaWord ++ "_" ++ pkgFormat ++ "_" ++ name
  else
    titleNoLower mediaWord ++ "_" ++ titleNoLower pkgFormat ++ "_" ++ titleNoLower name

/-- `hasXmlRoot`: the first `xml.Name` field decides; returns its xml tag
first segment and whether it is a usable name. -/
def hasXmlRoot (d : StructDef) : String × Bool :=
  match d.fields.find? (fun fld => fld.isXmlName) with
  | some fld =>
    let tag := firstSeg (tagGet fld.tags "xml")
    (tag, tag ≠ "" && tag ≠ "-")
  | none => ("", false)

/-- `makeStructName`: display name (possibly the XML root tag) and the
component name; anonymous structs are named "Anon". -/
def makeStructName (env : Env) (media : String) (id : Nat) : String × String :=
  let d := env id
  let name := if d.name = "" then "Anon" else d.name
  let mediaName := makeMediaName media d.pkgPath name
  match hasXmlRoot d with
  | (tag, true) => (tag, mediaName)
  | (_, false) => (name, mediaName)

/-- `makeRefString`. -/
def makeRefString (name : String) : String :=
  "#/components/schemas/" ++ name

/-- `isJsonField`: the property name from the "json" tag and the omitempty
flag; `none` when the first segment is empty or "-" (Go returns a nil
schema pointer then, and the caller keeps the field name unchanged). -/
def isJsonField (fld : GoField) : Option (String × Bool) :=
  let tagStr := tagGet fld.tags "json"
  let tag := firstSeg tagStr
  if tag = "" || tag = "-" then none
  else some (tag, containsSub tagStr "omitempty")

/-- `isXmlField`: element name, omitempty flag and the adjusted schema
(wrapper object for `name>wrapped` tags, plus the XML annotation). -/
def isXmlField (fld : GoField) (ref : Schema) : Option (String × Bool × Schema) :=
  let tagStr := tagGet fld.tags "xml"
  let tag0 := firstSeg tagStr
  if tag0 = "" || tag0 = "-" then none
  else
    let tag := match afterSep '>' tag0.data with
      | none => tag0
      | some _ => String.mk (takeUntil '>' tag0.data)
    let wrapper := match afterSep '>' tag0.data with
      | none => ""
      | some rest => String.mk (takeUntil '>' rest)
    let ref1 := if wrapper ≠ "" then objectWrap wrapper ref else ref
    let attrFlag := containsSub tagStr "attr"
    let ref2 := setXmlInfo ref1 ⟨tag, attrFlag, false⟩
    some (tag, containsSub tagStr "omitempty", ref2)

/-- `addProperty`: install the property and append to required if asked. -/
def addProperty (schema : Schema) (name : String) (property : Schema)
    (isRequired : Bool) : Schema :=
  match schema with
  | .mk r t f d p i rq a x =>
    .mk r t f d (putAssoc p name property) i
      (if isRequired then rq ++ [name] else rq) a x

/-- The media-specific switch of `makeSchema` applied to one field:
returns the final property name, required flag and schema. -/
def mediaAdjust (media : String) (fld : GoField) (ref : Schema) :
    String × Bool × Schema :=
  if media = xmlMedia then
    match isXmlField fld ref with
    | some (tag, omitEmpty, ref2) => (tag, canBeRequired fld && !omitEmpty, ref2)
    | none => (fld.name, canBeRequired fld, ref)
  else if media = jsonMedia then
    match isJsonField fld with
    | some (tag, omitEmpty) => (tag, canBeRequired fld && !omitEmpty, ref)
    | none => (fld.name, canBeRequired fld, ref)
  else (fld.name, canBeRequired fld, ref)

/-- Install the `XML` root annotation set by `collectSchema` for XML media. -/
def withXmlRoot (schema : Schema) (name : String) : Schema :=
  setXmlInfo schema ⟨name, false, true⟩

mutual

/-- `collectSchema`: non-structs yield an empty ref; structs are memoized,
with the reference registered eagerly (before the field walk) so recursive
occurrences resolve to the reserved $ref.  The final record is stored twice
because the source assigns `f.seen[t][media]` and then calls `putSeen` with
the same record. -/
def collectSchema (env : Env) (media : String) (t : GoType) (f : Factory)
    (fuel : Nat) : Option (String × Bool × Factory) :=
  match fuel with
  | 0 => none
  | n + 1 =>
    let isVec := isVector t
    match structId? (deferencePointer t) with
    | none => some ("", isVec, f)
    | some id =>
      match lookupSeen f id media with
      | some e => some (e.ref, isVec, f)
      | none =>
        let nm := makeStructName env media id
        let ref := makeRefString nm.2
        let f1 := putSeen f id media ⟨ref, nm.2, zeroSchema⟩
        match makeSchema env media (.struct id) f1 n with
        | none => none
        | some (none, _) => none
        | some (some sch, f2) =>
          let sch2 := if media = xmlMedia then withXmlRoot sch nm.1 else sch
          let f3 := putSeen (putSeen f2 id media ⟨ref, nm.2, sch2⟩) id media
            ⟨ref, nm.2, sch2⟩
          some (ref, isVec, f3)

/-- `makeSchema`: dereference, return nil for non-structs, otherwise walk
the fields (the inner `some (none, _) => none` branch of the caller is
unreachable because `collectSchema` always passes a struct type). -/
def makeSchema (env : Env) (media : String) (t : GoType) (f : Factory)
    (fuel : Nat) : Option (Option Schema × Factory) :=
  match fuel with
  | 0 => none
  | n + 1 =>
    match structId? (deferencePointer t) with
    | none => some (none, f)
    | some id =>
      match makeFields env media ((env id).fields) newSchema f n with
      | none => none
      | some (sch, f1) => some (some sch, f1)

/-- The field loop of `makeSchema`: skip anonymous and `xml.Name` fields,
infer the field schema, attach the description tag, apply the media switch
and install the property. -/
def makeFields (env : Env) (media : String) (flds : List GoField)
    (schema : Schema) (f : Factory) (fuel : Nat) : Option (Schema × Factory) :=
  match fuel with
  | 0 => none
  | n + 1 =>
    match flds with
    | [] => some (schema, f)
    | fld :: rest =>
      if fld.anonymous || fld.isXmlName then
        makeFields env media rest schema f n
      else
        match inferSchema env media fld.ftype f n with
        | none => none
        | some (s0, f1) =>
          let s1 := setDescription s0 (tagGet fld.tags "description")
          let tri := mediaAdjust media fld s1
          makeFields env media rest (addProperty schema tri.1 tri.2.2 tri.2.1) f1 n

/-- `inferSchema`: kind dispatch; unrecognized kinds default to "string". -/
def inferSchema (env : Env) (media : String) (t : GoType) (f : Factory)
    (fuel : Nat) : Option (Schema × Factory) :=
  match fuel with
  | 0 => none
  | n + 1 =>
    match t with
    | .ptr t2 => inferSchema env media t2 f n
    | .struct _ => inferStruct env media t f n
    | .slice t2 => inferArray env media t2 f n
    | .array t2 => inferArray env media t2 f n
    | .mapv t2 => inferMap env media t2 f n
    | .str => some (typeSchema "string", f)
    | .boolean => some (typeSchema "boolean", f)
    | .int => some (typeSchema "integer", f)
    | .float => some (typeSchema "number", f)
    | .other => some (typeSchema "string", f)

/-- `inferStruct`: collect the struct schema and return a $ref (wrapped in
items when the collected type was a vector). -/
def inferStruct (env : Env) (media : String) (t : GoType) (f : Factory)
    (fuel : Nat) : Option (Schema × Factory) :=
  match fuel with
  | 0 => none
  | n + 1 =>
    match collectSchema env media t f n with
    | none => none
    | some (ref, isVec, f1) =>
      some (if isVec then itemsRefSchema ref else refSchema ref, f1)

/-- `inferArray` applied to the element type (`fieldType.Elem()`). -/
def inferArray (env : Env) (media : String) (elemT : GoType) (f : Factory)
    (fuel : Nat) : Option (Schema × Factory) :=
  match fuel with
  | 0 => none
  | n + 1 =>
    match inferSchema env media elemT f n with
    | none => none
    | some (item, f1) => some (arraySchema item, f1)

/-- `inferMap` applied to the value type (`fieldType.Elem()`). -/
def inferMap (env : Env) (media : String) (valueT : GoType) (f : Factory)
    (fuel : Nat) : Option (Schema × Factory) :=
  match fuel with
  | 0 => none
  | n + 1 =>
    match inferSchema env media valueT f n with
    | none => none
    | some (value, f1) => some (mapSchema value, f1)

end

/-- The top-level pointer strip of `MakeSchema`:
`if t.Kind() == reflect.Ptr { t = t.Elem() }` (one level only). -/
def stripRootPointer : GoType → GoType
  | .ptr t => t
  | t => t

/-- `MakeSchema`: strip one pointer from the root type, collect, and wrap
in items when the root was a vector.  The argument is the runtime type of
the payload (`reflect.TypeOf(root)`). -/
def MakeSchema (env : Env) (media : String) (rootType : GoType) (f : Factory)
    (fuel : Nat) : Option (Schema × Factory) :=
  match collectSchema env media (stripRootPointer rootType) f fuel with
  | none => none
  | some (ref, isVec, f1) =>
    some (if isVec then itemsRefSchema ref else refSchema ref, f1)

/-- `Components()`: one schema per memo record, keyed by component name. -/
def components (f : Factory) : List (String × Schema) :=
  f.foldl (fun acc e => putAssoc acc e.2.name e.2.schema) []

end Swagger

/-! ## Results, combinators and the dispatch pipeline

`router/result/Result.go` (the variant with the `ignore`/`isFile` flags, as
shipped with the dispatch code of the router), the combinators of
FallbackHandlers/ValidateHandlers, and the per-request `handler` /
`initializeContext` / `manageOk` / `manageErr` / `managePanic` pipeline.

Payloads are type-erased (`any`) in Go; they are embedded as `Payload`,
covering the payload shapes the claims exercise (nil, strings, contexts
and opaque values).  Request contexts are dictionaries from string keys to
values; handlers receive the context by reference and may mutate it, which
is modelled by state passing: a handler maps a context to a result and the
mutated context.  The `http.ResponseWriter`/`*http.Request` arguments carry
no information used by the modelled control flow and are omitted. -/

namespace RouterM

/-- A request context: `collection.IDictionary[string, any]`, with values
abstracted to `Nat`. -/
abbrev Ctx := List (String × Nat)

/-- A type-erased payload value. -/
inductive Payload where
  | null
  | str (s : String)
  | ctx (c : Ctx)
  | raw (n : Nat)
deriving DecidableEq, Repr

/-- An encoder reference: the three built-ins plus caller-supplied custom
encoders identified by an index. -/
inductive Encoder where
  | text
  | json
  | xml
  | custom (n : Nat)
deriving DecidableEq, Repr

/-- `result.Result`: ignore (Continue) flag, success flag, file flag,
HTTP status, payload and encoder. -/
structure Result where
  ignore : Bool
  isOk : Bool
  isFile : Bool
  status : Nat
  payload : Payload
  encoder : Encoder
deriving DecidableEq, Repr

/-- Method `Result.Ok()`. -/
def Result.Ok (r : Result) : Bool := r.isOk

/-- Method `Result.Err()`. -/
def Result.Err (r : Result) : Bool := !r.isOk

/-- Constructor `result.Ok`: success, text encoder, HTTP 200. -/
def Ok (payload : Payload) : Result :=
  ⟨false, true, false, 200, payload, .text⟩

/-- Constructor `result.JsonOk`. -/
def JsonOk (payload : Payload) : Result :=
  ⟨false, true, false, 200, payload, .json⟩

/-- Constructor `result.Err`: failure with the error's message (empty for a
nil error) as text payload. -/
def Err (status : Nat) (errMsg : Option String) : Result :=
  ⟨false, false, false, status, .str (errMsg.getD ""), .text⟩

/-- Constructor `result.JsonErr`: note `isOk: true` in the source. -/
def JsonErr (status : Nat) (payload : Payload) : Result :=
  ⟨false, true, false, status, payload, .json⟩

/-- Constructor `result.XmlErr`: note `isOk: true` in the source. -/
def XmlErr (status : Nat) (payload : Payload) : Result :=
  ⟨false, true, false, status, payload, .xml⟩

/-- Constructor `result.CustomErr`: note `isOk: true` in the source; the
`isFile` field is left at its zero value. -/
def CustomErr (status : Nat) (payload : Payload) (encoder : Encoder) : Result :=
  ⟨false, true, false, status, payload, encoder⟩

/-- Constructor `result.Continue`. -/
def Continue : Result :=
  ⟨true, false, false, 0, .str "", .text⟩

/-- Modelled from the spec: `result.Next` is not among the provided sources
(only its caller `FallbackHandlers` and a test asserting that the empty
fallback yields `res.Ok() = true` are).  The spec describes it as a neutral
"proceed" result that callers must treat as success-equivalent for
chaining, so `isOk` is true and `ignore` marks it as bypassing automatic
resolution. -/
def Next : Result :=
  ⟨true, true, false, 0, .str "", .text⟩

/-- A route handler: receives the context by reference; modelled as
returning the result together with the possibly mutated context. -/
abbrev Handler := Ctx → Result × Ctx

/-- The loop of `FallbackHandlers`: `res` starts at `Next()` and is
replaced by each handler's result; the first Ok result is returned,
otherwise the last result stands. -/
def fallbackGo : List Handler → Result → Ctx → Result × Ctx
  | [], res, c => (res, c)
  | h :: rest, _, c =>
    let rc := h c
    if rc.1.Ok then rc else fallbackGo rest rc.1 rc.2

/-- `FallbackHandlers`: run handlers until one returns Ok. -/
def FallbackHandlers (handlers : List Handler) : Handler :=
  fun c => fallbackGo handlers Next c

/-- The loop of `ValidateHandlers`: stop at the first Err result; if all
succeed, return `result.Ok(c)` wrapping the context. -/
def validateGo : List Handler → Ctx → Result × Ctx
  | [], c => (Ok (.ctx c), c)
  | h :: rest, c =>
    let rc := h c
    if rc.1.Err then rc else validateGo rest rc.2

/-- `ValidateHandlers`: fail fast on the first error. -/
def ValidateHandlers (handlers : List Handler) : Handler :=
  fun c => validateGo handlers c

/-- All handlers succeed along the run from a context. -/
def allSucceed : List Handler → Ctx → Prop
  | [], _ => True
  | h :: rest, c => (h c).1.Ok = true ∧ allSucceed rest (h c).2

/-- All handlers fail along the run from a context. -/
def allFail : List Handler → Ctx → Prop
  | [], _ => True
  | h :: rest, c => (h c).1.Ok = false ∧ allFail rest (h c).2

/-- The context after running every handler in order. -/
def finalCtx : List Handler → Ctx → Ctx
  | [], c => c
  | h :: rest, c => finalCtx rest (h c).2

/-- The result and context of the last handler in a non-empty chain. -/
def lastRun : List Handler → Ctx → Result × Ctx
  | [], c => (Next, c)
  | [h], c => h c
  | h :: rest, c => lastRun rest (h c).2

end RouterM

/-! ## The dispatch pipeline of part_005 (Router.handler and friends) -/

namespace RouterM

/-- The reserved key for global handlers. -/
def BASE : String := "$BASE"

/-- A registered error handler: consumes the context and the failing
result and writes some response, abstracted by an index. -/
abbrev ErrHandler := Ctx → Result → Nat

/-- A registered panic handler: consumes the recovered value. -/
abbrev PanicHandler := String → Nat

/-- What the router wrote for a request. -/
inductive Written where
  | encoded (status : Nat) (body : String) (headers : List (String × String))
  | httpError (status : Nat) (body : String)
  | custom (n : Nat)
deriving DecidableEq, Repr

/-- The registration state of a router, as read by `handler`: route table,
contextualizer table, group contextualizers, error handlers and panic
handlers, all keyed by the route pattern (or `BASE`).  A contextualizer is
`func(w, r) (Context, error)`; since the writer and request carry no
modelled information, it is represented by the pair it returns. -/
structure RouterS where
  routes : List (String × Handler)
  contextualizer : List (String × (Ctx × Option String))
  groupCtx : List (String × List Handler)
  errors : List (String × ErrHandler)
  panics : List (String × PanicHandler)

/-- Encoding a payload, modelling `ResultEncoder.Encode`: a nil payload
yields an empty body for every encoder; the other payload shapes encode
without error (the exact byte serialization is abstracted to a tagged
string, which is faithful for the claims, none of which inspects encoded
bytes). -/
def encodePayload : Encoder → Payload → Option String
  | _, .null => some ""
  | .text, .str s => some s
  | .text, .ctx c => some ("json" ++ toString c.length)
  | .text, .raw n => some (toString n)
  | .json, .str s => some ("json-str " ++ s)
  | .json, .ctx c => some ("json-ctx " ++ toString c.length)
  | .json, .raw n => some ("json-raw " ++ toString n)
  | .xml, .str s => some ("xml-str " ++ s)
  | .xml, .ctx c => some ("xml-ctx " ++ toString c.length)
  | .xml, .raw n => some ("xml-raw " ++ toString n)
  | .custom k, _ => some ("custom " ++ toString k)

/-- `ResultEncoder.Headers()`. -/
def encoderHeaders : Encoder → List (String × String)
  | .text => [("Content-Type", "text/plain")]
  | .json => [("Content-Type", "application/json")]
  | .xml => [("Content-Type", "application/xml")]
  | .custom _ => [("Content-Type", "custom")]

/-- `manageOk`: encode the payload (failure writes a 500), write an Err
result through `http.Error` with its status, otherwise write the status,
the encoder headers and the body. -/
def manageOk (res : Result) : Written :=
  match encodePayload res.encoder res.payload with
  | none => .httpError 500 "encode error"
  | some body =>
    if res.Err then .httpError res.status body
    else .encoded res.status body (encoderHeaders res.encoder)

/-- `manageErr`: per-route error handler, else the global one, else fall
back to `manageOk` on the result as-is. -/
def manageErr (r : RouterS) (pat : String) (c : Ctx) (res : Result) : Written :=
  match orD (lookupA r.errors pat) (lookupA r.errors BASE) with
  | some eh => .custom (eh c res)
  | none => manageOk res

/-- `managePanic`: per-route panic handler, else the global one, else a
generic 500 naming the failing route key (the Go message wraps the key in
single quotes; the quotes are omitted here). -/
def managePanic (r : RouterS) (pat : String) (rec : String) : Written :=
  match orD (lookupA r.panics pat) (lookupA r.panics BASE) with
  | some ph => .custom (ph rec)
  | none =>
    .httpError 500 ("Uncontrolled panic during resolution of " ++ pat)

/-- The contextualizer selected for a route: exact key first, then BASE. -/
def selectCtxzer (r : RouterS) (pat : String) : Option (Ctx × Option String) :=
  orD (lookupA r.contextualizer pat) (lookupA r.contextualizer BASE)

/-- The contextualizer phase of `initializeContext`: start from the empty
dictionary; when a contextualizer is selected, its returned context
replaces the empty one even when it also reports an error, and the error
is logged. -/
def ctxPhase (r : RouterS) (pat : String) : Ctx × List String :=
  match selectCtxzer r pat with
  | none => ([], [])
  | some (c, none) => (c, [])
  | some (c, some e) => (c, [e])

/-- The path part of a pattern: `strings.Split(pattern, " ")[1]` (for a
pattern without a space, the Go indexing would panic; every pattern built
by `patternKey` contains one, so that case is mapped to the empty
string). -/
def groupOf (pat : String) : String :=
  match afterSep ' ' pat.data with
  | none => ""
  | some rest => String.mk (takeUntil ' ' rest)

/-- The inner loop over one group's handlers: the first failing result
short-circuits. -/
def runFuncs : List Handler → Ctx → Ctx × Option Result
  | [], c => (c, none)
  | h :: rest, c =>
    let rc := h c
    if rc.1.Err then (rc.2, some rc.1) else runFuncs rest rc.2

/-- The outer loop over the matching group keys; a key that is missing
from the table ends the loop early returning the context (the source's
`if !ok { return context, nil }`, unreachable for keys drawn from the
table itself). -/
def groupLoopKeys (tbl : List (String × List Handler)) :
    List String → Ctx → Ctx × Option Result
  | [], c => (c, none)
  | k :: rest, c =>
    match lookupA tbl k with
    | none => (c, none)
    | some fs =>
      match runFuncs fs c with
      | (c', some res) => (c', some res)
      | (c', none) => groupLoopKeys tbl rest c'

/-- The group phase of `initializeContext`: every registered group prefix
that is a string prefix of the route's path runs its handlers in order. -/
def groupPhase (r : RouterS) (pat : String) (c0 : Ctx) : Ctx × Option Result :=
  let keys := (r.groupCtx.map Prod.fst).filter
    (fun k => goHasPre (groupOf pat) k)
  groupLoopKeys r.groupCtx keys c0

/-- `initializeContext`: contextualizer phase then group phase; returns
the context, the aborting result (if a group handler failed) and the log
messages emitted. -/
def initializeContext (r : RouterS) (pat : String) :
    Ctx × Option Result × List String :=
  let cl := ctxPhase r pat
  let gr := groupPhase r pat cl.1
  (gr.1, gr.2, cl.2)

/-- Which branch of `handler` produced the response. -/
inductive PathTag where
  | okPath
  | errPath
  | panicPath
deriving DecidableEq, Repr

/-- The outcome of dispatching one request. -/
structure DispatchOut where
  write : Written
  tag : PathTag
  logs : List String
deriving DecidableEq, Repr

/-- `handler`, the per-request dispatch: look up the bound handler (a miss
is logged but execution continues); build the context (a failing group
handler goes to `manageErr`); then dereference the handler — a nil pointer
when the route was missing, whose panic is recovered by the deferred
`managePanic`; otherwise route the result by its Ok flag. -/
def dispatch (r : RouterS) (pat : String) : DispatchOut :=
  let hfound := lookupA r.routes pat
  let logsNF : List String :=
    match hfound with
    | none => ["Request handler not found"]
    | some _ => []
  let ic := initializeContext r pat
  let logs := logsNF ++ ic.2.2
  match ic.2.1 with
  | some res => ⟨manageErr r pat ic.1 res, .errPath, logs⟩
  | none =>
    match hfound with
    | none =>
      ⟨managePanic r pat
          "runtime error: invalid memory address or nil pointer dereference",
        .panicPath, logs⟩
    | some h =>
      let rc := h ic.1
      if rc.1.Ok then ⟨manageOk rc.1, .okPath, logs⟩
      else ⟨manageErr r pat rc.2 rc.1, .errPath, logs⟩

end RouterM

/-! ## Request body reading with options (InputBytesWithOpts) -/

namespace InputM

/-- `router.InputOpts`. -/
structure InputOpts where
  strict : Bool
  limit : Int

/-- A request body, as the byte sequence a fault-free reader delivers. -/
abbrev Body := List Nat

/-- `readAllBytes` on a fault-free body reader: everything, no error. -/
def readAllBytes (body : Body) : Body × Option RouterM.Result :=
  (body, none)

/-- `readMaxBytes`: `http.MaxBytesReader` lets at most `limit` bytes
through and reports an error when the body exceeds the limit, which the
source maps to a 413 result (`result.Err(http.StatusRequestEntityTooLarge)`
with no message). -/
def readMaxBytes (body : Body) (limit : Int) : Body × Option RouterM.Result :=
  if limit < (body.length : Int) then
    (body.take limit.toNat, some (RouterM.Err 413 none))
  else (body, none)

/-- `readLaxBytes`: `io.LimitReader` silently truncates to `limit`. -/
def readLaxBytes (body : Body) (limit : Int) : Body × Option RouterM.Result :=
  (body.take limit.toNat, none)

/-- `readOptBytes`: non-positive limit reads everything; otherwise the
strict flag selects the 413-erroring or the truncating reader. -/
def readOptBytes (body : Body) (limit : Int) (strict : Bool) :
    Body × Option RouterM.Result :=
  if limit ≤ 0 then readAllBytes body
  else if strict then readMaxBytes body limit
  else readLaxBytes body limit

/-- `InputBytesWithOpts` (the `defer r.Body.Close()` has no observable
effect on the returned data). -/
def InputBytesWithOpts (opts : InputOpts) (body : Body) :
    Body × Option RouterM.Result :=
  readOptBytes body opts.limit opts.strict

end InputM

/-! ## Response merging of the OpenAPI3 viewer (OpenAPI3Viewer.go) -/

namespace Swagger

/-- `docs.DocPayload`: payload runtime type, media type and description
(a nil payload never reaches `makeResponsesFromMap` in the modelled
claims, so the payload is a type). -/
structure DocPayload where
  payload : GoType
  mediaType : String
  descr : String

/-- A media-type object `{schema: ...}` inside a response. -/
structure MediaTypeObj where
  schema : Schema

/-- An OpenAPI `Response`: description and content map. -/
structure Response where
  descr : String
  content : List (String × MediaTypeObj)

/-- The loop of `makeResponsesFromMap`: build one Response per status via
`MakeSchema` (threading the factory), accumulating into a map. -/
def makeRespLoop (env : Env) : List (String × DocPayload) →
    List (String × Response) → Factory → Nat →
    Option (List (String × Response) × Factory)
  | [], acc, f, _ => some (acc, f)
  | (status, pl) :: rest, acc, f, fuel =>
    match MakeSchema env pl.mediaType pl.payload f fuel with
    | none => none
    | some (sch, f1) =>
      let resp : Response := ⟨pl.descr, [(pl.mediaType, ⟨sch⟩)]⟩
      makeRespLoop env rest (putAssoc acc status resp) f1 fuel

/-- `makeResponsesFromMap`: empty input short-circuits to an empty map. -/
def makeResponsesFromMap (env : Env) (f : Factory)
    (responses : List (String × DocPayload)) (fuel : Nat) :
    Option (List (String × Response) × Factory) :=
  match responses with
  | [] => some ([], f)
  | _ => makeRespLoop env responses [] f fuel

/-- The group accumulation step of `makeResponses`: merge the stored
response maps of every registered prefix that is a prefix of the path. -/
def groupedResponses (tbl : List (String × List (String × Response)))
    (path : String) : List (String × Response) :=
  tbl.foldl (fun acc p => if goHasPre path p.1 then mapsCopy acc p.2 else acc) []

/-- `makeResponses`: build the route-specific responses, then copy the
grouped responses over them (`maps.Copy(result, reponses)`), so group
entries overwrite route entries on key collision. -/
def makeResponses (env : Env) (tbl : List (String × List (String × Response)))
    (path : String) (routeResponses : List (String × DocPayload))
    (f : Factory) (fuel : Nat) :
    Option (List (String × Response) × Factory) :=
  match makeResponsesFromMap env f routeResponses fuel with
  | none => none
  | some (result, f1) => some (mapsCopy result (groupedResponses tbl path), f1)

end Swagger

/-! ## Claim C5 and C6: the Validate and Fallback combinators -/

namespace RouterM

theorem fallbackGo_res_irrel (h : Handler) (rest : List Handler)
    (r r' : Result) (c : Ctx) :
    fallbackGo (h :: rest) r c = fallbackGo (h :: rest) r' c := rfl

/-- C5: `ValidateHandlers` runs the handlers in order and returns the
first failing handler's Result unchanged without invoking any later
handler (the outcome does not depend on the handlers after the failing
one); if every handler succeeds it returns a success Result wrapping the
possibly mutated context; with zero handlers it returns a success
Result. -/
theorem ValidateHandlers_spec :
    (∀ c : Ctx, ValidateHandlers [] c = (Ok (.ctx c), c)) ∧
    (∀ (h : Handler) (rest : List Handler) (c : Ctx),
      (h c).1.Ok = false → ValidateHandlers (h :: rest) c = h c) ∧
    (∀ (h : Handler) (rest : List Handler) (c : Ctx),
      (h c).1.Ok = true →
      ValidateHandlers (h :: rest) c = ValidateHandlers rest (h c).2) ∧
    (∀ (hs : List Handler) (c : Ctx), allSucceed hs c →
      ValidateHandlers hs c = (Ok (.ctx (finalCtx hs c)), finalCtx hs c)) := by
  refine ⟨fun c => rfl, ?_, ?_, ?_⟩
  · intro h rest c hfail
    simp only [Result.Ok] at hfail
    simp [ValidateHandlers, validateGo, Result.Err, hfail]
  · intro h rest c hok
    simp only [Result.Ok] at hok
    simp [ValidateHandlers, validateGo, Result.Err, hok]
  · intro hs
    induction hs with
    | nil => intro c _; rfl
    | cons h rest ih =>
      intro c hall
      obtain ⟨hok, hrest⟩ := hall
      simp only [Result.Ok] at hok
      have hstep : ValidateHandlers (h :: rest) c = ValidateHandlers rest (h c).2 := by
        simp [ValidateHandlers, validateGo, Result.Err, hok]
      rw [hstep, ih (h c).2 hrest]
      rfl

/-- Witness for C5 at concrete handlers: a failing first handler is
returned unchanged and the second handler is never consulted. -/
theorem ValidateHandlers_spec_witness :
    ValidateHandlers [fun c => (Err 401 none, c), fun c => (Ok .null, c)] [] =
      (Err 401 none, ([] : Ctx)) :=
  ValidateHandlers_spec.2.1 (fun c => (Err 401 none, c))
    [fun c => (Ok .null, c)] [] rfl

/-- C6: `FallbackHandlers` runs the handlers in order and returns the
first success without invoking any later handler; on failure it continues
with the loop over the remaining handlers, so when no handler succeeds the
result of the last executed handler is returned; with zero handlers it
returns the neutral proceed result `Next`, which is success-equivalent
(`Ok() = true`). -/
theorem FallbackHandlers_spec :
    ((∀ c : Ctx, FallbackHandlers [] c = (Next, c)) ∧ Next.Ok = true) ∧
    (∀ (h : Handler) (rest : List Handler) (c : Ctx),
      (h c).1.Ok = true → FallbackHandlers (h :: rest) c = h c) ∧
    (∀ (h : Handler) (rest : List Handler) (c : Ctx),
      (h c).1.Ok = false →
      FallbackHandlers (h :: rest) c = fallbackGo rest (h c).1 (h c).2) ∧
    (∀ (hs : List Handler) (c : Ctx), hs ≠ [] → allFail hs c →
      FallbackHandlers hs c = lastRun hs c) := by
  refine ⟨⟨fun c => rfl, rfl⟩, ?_, ?_, ?_⟩
  · intro h rest c hok
    simp [FallbackHandlers, fallbackGo, hok]
  · intro h rest c hfail
    simp [FallbackHandlers, fallbackGo, hfail]
  · intro hs
    induction hs with
    | nil => intro c hne _; exact absurd rfl hne
    | cons h rest ih =>
      intro c _ hall
      obtain ⟨hfail, hrest⟩ := hall
      cases rest with
      | nil =>
        simp [FallbackHandlers, fallbackGo, hfail, lastRun]
      | cons h2 t =>
        have hstep : FallbackHandlers (h :: h2 :: t) c =
            fallbackGo (h2 :: t) (h c).1 (h c).2 := by
          simp [FallbackHandlers, fallbackGo, hfail]
        rw [hstep, fallbackGo_res_irrel h2 t (h c).1 Next (h c).2]
        have := ih (h c).2 (by simp) hrest
        rw [show fallbackGo (h2 :: t) Next (h c).2 =
          FallbackHandlers (h2 :: t) (h c).2 from rfl, this]
        rfl

/-- Witness for C6 at concrete handlers: the first success stops the
chain. -/
theorem FallbackHandlers_spec_witness :
    FallbackHandlers [fun c => (Ok .null, c), fun c => (Err 500 none, c)] [] =
      (Ok .null, ([] : Ctx)) :=
  FallbackHandlers_spec.2.1 (fun c => (Ok .null, c))
    [fun c => (Err 500 none, c)] [] rfl

end RouterM

/-! ## Claim C7: body reading under size limits -/

namespace InputM

/-- C7: for a body longer than a positive limit L, the strict read returns
the 413 failure and at most L bytes; the lax read returns exactly the
first L bytes with no error; and with limit 0 the whole body is read in
either mode. -/
theorem InputBytesWithOpts_limit_spec :
    ∀ (body : Body) (L : Int), 0 < L → L < (body.length : Int) →
      (InputBytesWithOpts ⟨true, L⟩ body =
          (body.take L.toNat, some (RouterM.Err 413 none)) ∧
        ((body.take L.toNat).length : Int) ≤ L ∧
        (RouterM.Err 413 none).Err = true ∧
        (RouterM.Err 413 none).status = 413) ∧
      InputBytesWithOpts ⟨false, L⟩ body = (body.take L.toNat, none) ∧
      (∀ s : Bool, InputBytesWithOpts ⟨s, 0⟩ body = (body, none)) := by
  intro body L hpos hlong
  have hnotle : ¬(L ≤ 0) := by omega
  refine ⟨⟨?_, ?_, rfl, rfl⟩, ?_, ?_⟩
  · simp [InputBytesWithOpts, readOptBytes, readMaxBytes, hnotle, hlong]
  · have : (body.take L.toNat).length = L.toNat := by
      rw [List.length_take]
      omega
    rw [this]
    omega
  · simp [InputBytesWithOpts, readOptBytes, readLaxBytes, hnotle]
  · intro s
    simp [InputBytesWithOpts, readOptBytes, readAllBytes]

/-- Witness for C7 on a 10-byte body with limit 5. -/
theorem InputBytesWithOpts_limit_spec_witness :
    InputBytesWithOpts ⟨true, 5⟩ [1, 2, 3, 4, 5, 6, 7, 8, 9, 10] =
      ([1, 2, 3, 4, 5], some (RouterM.Err 413 none)) ∧
    InputBytesWithOpts ⟨false, 5⟩ [1, 2, 3, 4, 5, 6, 7, 8, 9, 10] =
      ([1, 2, 3, 4, 5], none) ∧
    InputBytesWithOpts ⟨true, 0⟩ [1, 2, 3, 4, 5, 6, 7, 8, 9, 10] =
      ([1, 2, 3, 4, 5, 6, 7, 8, 9, 10], none) := by
  have h := InputBytesWithOpts_limit_spec [1, 2, 3, 4, 5, 6, 7, 8, 9, 10] 5
    (by decide) (by decide)
  exact ⟨h.1.1, h.2.1, h.2.2 true⟩

end InputM

/-! ## Claim C8: contextualizer faults are logged, non-fatal -/

namespace RouterM

/-- C8 (amended): when the selected contextualizer reports an error, that
error is logged, and the request proceeds exactly as it would with the
same returned context and no error: the resulting context and the abort
decision coincide with those of an error-free run, so the contextualizer
error itself never routes the request to the error path.  (The context
used is the one the contextualizer returned, which need not be empty.) -/
theorem initializeContext_ctxzer_fault_nonfatal :
    ∀ (r : RouterS) (pat : String) (c : Ctx) (e : String),
      selectCtxzer r pat = some (c, some e) →
      (initializeContext r pat).2.2 = [e] ∧
      (initializeContext { r with contextualizer := [(pat, (c, none))] } pat).1
        = (initializeContext r pat).1 ∧
      (initializeContext { r with contextualizer := [(pat, (c, none))] } pat).2.1
        = (initializeContext r pat).2.1 ∧
      (initializeContext { r with contextualizer := [(pat, (c, none))] } pat).2.2
        = [] := by
  intro r pat c e hsel
  have hphase : ctxPhase r pat = (c, [e]) := by
    simp [ctxPhase, hsel]
  have hsel' : selectCtxzer { r with contextualizer := [(pat, (c, none))] } pat
      = some (c, none) := by
    simp [selectCtxzer, lookupA]
  have hphase' : ctxPhase { r with contextualizer := [(pat, (c, none))] } pat
      = (c, []) := by
    simp [ctxPhase, hsel']
  have hgroup : groupPhase { r with contextualizer := [(pat, (c, none))] } pat c
      = groupPhase r pat c := rfl
  refine ⟨?_, ?_, ?_, ?_⟩ <;>
    simp [initializeContext, hphase, hphase', hgroup]

/-- C8 counterexample to the claim as stated: a contextualizer that
returns a non-empty context together with an error; the fault is logged
and the request proceeds, but with the returned context, not with an
empty one. -/
theorem initializeContext_nonempty_ctx_counterexample :
    initializeContext ⟨[], [(BASE, ([("k", 1)], some "boom"))], [], [], []⟩
        "GET /x" = ([("k", 1)], none, ["boom"]) ∧
    ([("k", 1)] : Ctx) ≠ ([] : Ctx) := by
  exact ⟨rfl, by decide⟩

/-- Witness for C8 at a concrete router whose global contextualizer
returns context `[("k", 1)]` and error "boom". -/
theorem initializeContext_ctxzer_fault_nonfatal_witness :
    (initializeContext ⟨[], [(BASE, ([("k", 1)], some "boom"))], [], [], []⟩
        "GET /x").2.2 = ["boom"] := by
  have h := initializeContext_ctxzer_fault_nonfatal
    ⟨[], [(BASE, ([("k", 1)], some "boom"))], [], [], []⟩
    "GET /x" [("k", 1)] "boom" rfl
  exact h.1

/-! ## Claim C9: dispatch of a route with no bound handler -/

/-- C9 evidence: with no bound handler, `handler` logs the miss but then
dereferences the nil handler pointer; the resulting panic is recovered and
answered by the default panic writer, not by a "handler not found" failure
response. -/
theorem dispatch_missing_handler_panics :
    dispatch ⟨[], [], [], [], []⟩ "GET /x" =
      ⟨.httpError 500 "Uncontrolled panic during resolution of GET /x",
        .panicPath, ["Request handler not found"]⟩ := by
  decide

end RouterM

/-! ## Claim C10: JsonErr/XmlErr/CustomErr are success-flagged -/

namespace RouterM

/-- C10: the JsonErr/XmlErr/CustomErr constructors set `isOk: true`, so
`Ok()` is true and `Err()` is false for every status and payload; a route
handler returning such a Result is routed through the success branch
(`manageOk`) of dispatch, and the outcome is independent of the registered
error handlers (the error-handler chain is never consulted). -/
theorem errConstructors_routed_ok :
    (∀ (st : Nat) (p : Payload),
      (JsonErr st p).Ok = true ∧ (JsonErr st p).Err = false ∧
      (XmlErr st p).Ok = true ∧ (XmlErr st p).Err = false ∧
      ∀ enc, (CustomErr st p enc).Ok = true ∧ (CustomErr st p enc).Err = false) ∧
    (∀ (r : RouterS) (pat : String) (h : Handler) (st : Nat) (p : Payload),
      lookupA r.routes pat = some h →
      (initializeContext r pat).2.1 = none →
      ((h (initializeContext r pat).1).1 = JsonErr st p ∨
        (h (initializeContext r pat).1).1 = XmlErr st p ∨
        ∃ enc, (h (initializeContext r pat).1).1 = CustomErr st p enc) →
      (dispatch r pat).tag = .okPath ∧
      (dispatch r pat).write = manageOk (h (initializeContext r pat).1).1 ∧
      ∀ es, dispatch { r with errors := es } pat = dispatch r pat) := by
  constructor
  · intro st p
    exact ⟨rfl, rfl, rfl, rfl, fun enc => ⟨rfl, rfl⟩⟩
  · intro r pat h st p hroute hctx hres
    have hok : (h (initializeContext r pat).1).1.Ok = true := by
      rcases hres with h1 | h1 | ⟨enc, h1⟩ <;> rw [h1] <;> rfl
    have hgoal : ∀ es : List (String × ErrHandler),
        dispatch { r with errors := es } pat =
          ⟨manageOk (h (initializeContext r pat).1).1, .okPath,
            (initializeContext r pat).2.2⟩ := by
      intro es
      have hroute' : lookupA ({ r with errors := es } : RouterS).routes pat
          = some h := hroute
      have hini : initializeContext { r with errors := es } pat
          = initializeContext r pat := rfl
      simp only [dispatch, hroute', hini, hctx, hok, if_true, List.nil_append]
    have hr : dispatch r pat =
        ⟨manageOk (h (initializeContext r pat).1).1, .okPath,
          (initializeContext r pat).2.2⟩ := by
      have := hgoal r.errors
      simpa using this
    refine ⟨?_, ?_, ?_⟩
    · rw [hr]
    · rw [hr]
    · intro es
      rw [hgoal es, hr]

/-- Witness for C10: a concrete router whose single route returns
`JsonErr 404` and which has a global error handler that is nevertheless
never consulted. -/
theorem errConstructors_routed_ok_witness :
    (dispatch
        ⟨[("GET /x", fun c => (JsonErr 404 (.str "gone"), c))], [], [],
          [(BASE, fun _ _ => 7)], []⟩ "GET /x").tag = .okPath :=
  (errConstructors_routed_ok.2
    ⟨[("GET /x", fun c => (JsonErr 404 (.str "gone"), c))], [], [],
      [(BASE, fun _ _ => 7)], []⟩ "GET /x"
    (fun c => (JsonErr 404 (.str "gone"), c)) 404 (.str "gone")
    rfl rfl (Or.inl rfl)).1

end RouterM

/-! ## Claim C3: precedence in the merged response map -/

namespace Swagger

theorem nodupKeys_groupedResponses
    (tbl : List (String × List (String × Response))) (path : String) :
    NodupKeys (groupedResponses tbl path) := by
  have hgen : ∀ (l : List (String × List (String × Response)))
      (acc : List (String × Response)), NodupKeys acc →
      NodupKeys (l.foldl
        (fun acc p => if goHasPre path p.1 then mapsCopy acc p.2 else acc) acc) := by
    intro l
    induction l with
    | nil => intro acc h; exact h
    | cons p t ih =>
      intro acc h
      by_cases hp : goHasPre path p.1
      · simp only [List.foldl_cons, hp, if_true]
        exact ih _ (nodupKeys_mapsCopy p.2 h)
      · simp only [List.foldl_cons, hp, if_false]
        exact ih _ h
  exact hgen tbl [] (by simp [NodupKeys])

/-- C3 (amended): in the response map built by `makeResponses`, a key
present in the merged matching-prefix group maps resolves to the group
entry — group entries take precedence over route-specific entries on key
collision, because `maps.Copy(result, reponses)` copies the group map over
the route map — and keys present in only one of the two maps come from
that map (the merge is otherwise the union of both). -/
theorem makeResponses_group_precedence :
    ∀ (env : Env) (tbl : List (String × List (String × Response)))
      (path : String) (routeResponses : List (String × DocPayload))
      (f : Factory) (fuel : Nat) (rmap : List (String × Response)) (f1 : Factory),
      makeResponsesFromMap env f routeResponses fuel = some (rmap, f1) →
      makeResponses env tbl path routeResponses f fuel =
        some (mapsCopy rmap (groupedResponses tbl path), f1) ∧
      ∀ k, lookupA (mapsCopy rmap (groupedResponses tbl path)) k =
        orD (lookupA (groupedResponses tbl path) k) (lookupA rmap k) := by
  intro env tbl path routeResponses f fuel rmap f1 hmk
  constructor
  · unfold makeResponses
    rw [hmk]
  · intro k
    exact lookupA_mapsCopy rmap (groupedResponses tbl path) k
      (nodupKeys_groupedResponses tbl path)

/-- C3 counterexample to the claim as stated: a status key registered both
for a matching group and for the route resolves to the group entry, not to
the route-specific one. -/
theorem makeResponses_route_precedence_counterexample :
    ((makeResponses (fun _ => ⟨"T", "pkg", []⟩)
        [("/api", [("200", (⟨"G", []⟩ : Response))])] "/api/x"
        [("200", ⟨.str, jsonMedia, "R"⟩)] emptyFactory 5).map
      (fun out => (lookupA out.1 "200").map Response.descr)) = some (some "G") ∧
    "G" ≠ "R" :=
  ⟨rfl, by decide⟩

/-- Witness for C3 (amended) at the same concrete inputs. -/
theorem makeResponses_group_precedence_witness :
    lookupA (mapsCopy
        [("200", (⟨"R", [(jsonMedia, ⟨refSchema ""⟩)]⟩ : Response))]
        (groupedResponses [("/api", [("200", (⟨"G", []⟩ : Response))])] "/api/x"))
        "200" =
      orD (lookupA (groupedResponses
            [("/api", [("200", (⟨"G", []⟩ : Response))])] "/api/x") "200")
          (lookupA [("200", (⟨"R", [(jsonMedia, ⟨refSchema ""⟩)]⟩ : Response))]
            "200") :=
  (makeResponses_group_precedence (fun _ => ⟨"T", "pkg", []⟩)
    [("/api", [("200", (⟨"G", []⟩ : Response))])] "/api/x"
    [("200", ⟨.str, jsonMedia, "R"⟩)] emptyFactory 5
    [("200", ⟨"R", [(jsonMedia, ⟨refSchema ""⟩)]⟩)] emptyFactory rfl).2 "200"

end Swagger

/-! ## Claim C4: JSON tag interpretation for struct fields -/

namespace Swagger

/-- C4 (amended): for a non-anonymous, non-`xml.Name` field processed
under JSON media, when the first comma-segment of the "json" tag is
non-empty and not "-" it becomes the property name and an "omitempty"
occurrence in the tag cancels the field's required-candidate status;
when the segment is empty or "-" the field is NOT omitted: it is kept
under its Go field name with its required-candidate status unchanged. -/
theorem makeFields_json_tag (env : Env) (fld : GoField) (sch : Schema)
    (f : Factory) (n : Nat) (s0 : Schema) (f1 : Factory)
    (hanon : fld.anonymous = false) (hxml : fld.isXmlName = false)
    (hinf : inferSchema env jsonMedia fld.ftype f (n + 1) = some (s0, f1)) :
    (firstSeg (tagGet fld.tags "json") ≠ "" ∧
        firstSeg (tagGet fld.tags "json") ≠ "-" →
      makeFields env jsonMedia [fld] sch f (n + 2) =
        some (addProperty sch (firstSeg (tagGet fld.tags "json"))
          (setDescription s0 (tagGet fld.tags "description"))
          (canBeRequired fld && !containsSub (tagGet fld.tags "json") "omitempty"),
          f1)) ∧
    (firstSeg (tagGet fld.tags "json") = "" ∨
        firstSeg (tagGet fld.tags "json") = "-" →
      makeFields env jsonMedia [fld] sch f (n + 2) =
        some (addProperty sch fld.name
          (setDescription s0 (tagGet fld.tags "description"))
          (canBeRequired fld), f1)) := by
  have hskip : (fld.anonymous || fld.isXmlName) = false := by
    rw [hanon, hxml]; rfl
  have hjmxm : ¬(jsonMedia = xmlMedia) := by decide
  constructor
  · rintro ⟨hne, hnd⟩
    have hjson : isJsonField fld =
        some (firstSeg (tagGet fld.tags "json"),
          containsSub (tagGet fld.tags "json") "omitempty") := by
      unfold isJsonField
      simp [hne, hnd]
    have hadj : mediaAdjust jsonMedia fld
        (setDescription s0 (tagGet fld.tags "description")) =
        (firstSeg (tagGet fld.tags "json"),
          canBeRequired fld && !containsSub (tagGet fld.tags "json") "omitempty",
          setDescription s0 (tagGet fld.tags "description")) := by
      unfold mediaAdjust
      rw [if_neg hjmxm, if_pos rfl, hjson]
    simp only [makeFields, hskip, Bool.false_eq_true, if_false, hinf, hadj]
  · intro hor
    have hjson : isJsonField fld = none := by
      unfold isJsonField
      rcases hor with h | h <;> simp [h]
    have hadj : mediaAdjust jsonMedia fld
        (setDescription s0 (tagGet fld.tags "description")) =
        (fld.name, canBeRequired fld,
          setDescription s0 (tagGet fld.tags "description")) := by
      unfold mediaAdjust
      rw [if_neg hjmxm, if_pos rfl, hjson]
    simp only [makeFields, hskip, Bool.false_eq_true, if_false, hinf, hadj]

/-- C4 counterexample to the claim as stated: a field tagged `json:"-"`
is not omitted from the schema; it appears under its Go field name. -/
theorem makeFields_json_dash_counterexample :
    ((makeFields (fun _ => ⟨"T", "pkg", []⟩) jsonMedia
        [⟨"Secret", false, [("json", "-")], .str, false⟩] newSchema
        emptyFactory 3).map (fun out => keysA out.1.props)) = some ["Secret"] ∧
    (["Secret"] : List String) ≠ [] :=
  ⟨rfl, by decide⟩

/-- Witness for C4 (amended) at a concrete field tagged
`json:"nick,omitempty"` of string type. -/
theorem makeFields_json_tag_witness :
    makeFields (fun _ => ⟨"T", "pkg", []⟩) jsonMedia
        [⟨"Nick", false, [("json", "nick,omitempty")], .str, false⟩]
        newSchema emptyFactory 2 =
      some (addProperty newSchema
        (firstSeg (tagGet [("json", "nick,omitempty")] "json"))
        (setDescription (typeSchema "string")
          (tagGet [("json", "nick,omitempty")] "description"))
        (canBeRequired ⟨"Nick", false, [("json", "nick,omitempty")], .str, false⟩ &&
          !containsSub (tagGet [("json", "nick,omitempty")] "json") "omitempty"),
        emptyFactory) :=
  (makeFields_json_tag (fun _ => ⟨"T", "pkg", []⟩)
    ⟨"Nick", false, [("json", "nick,omitempty")], .str, false⟩
    newSchema emptyFactory 0 (typeSchema "string") emptyFactory
    rfl rfl rfl).1 ⟨by decide, by decide⟩

end Swagger

/-! ## Claim C2: idempotence of schema generation -/

namespace Swagger

/-- Invariant of factories reachable from the empty one: every memo record
carries the component name derived from its key and the matching
reference string. -/
def FactoryWF (env : Env) (f : Factory) : Prop :=
  ∀ (id : Nat) (med : String) (e : SeenEntry),
    lookupSeen f id med = some e →
      e.name = (makeStructName env med id).2 ∧ e.ref = makeRefString e.name

/-- The number of component entries stored under a name. -/
def countName (l : List (String × Schema)) (nm : String) : Nat :=
  l.countP (fun p => decide (p.1 = nm))

theorem collectSchema_nonstruct (env : Env) (media : String) (t : GoType)
    (f : Factory) (fuel : Nat) (ref : String) (vec : Bool) (f' : Factory)
    (hc : collectSchema env media t f fuel = some (ref, vec, f'))
    (hid : structId? (deferencePointer t) = none) :
    ref = "" ∧ vec = isVector t ∧ f' = f := by
  cases fuel with
  | zero => exact absurd hc (by simp [collectSchema])
  | succ n =>
    simp only [collectSchema, hid] at hc
    injection hc with hc
    exact ⟨(congrArg Prod.fst hc).symm,
      (congrArg (fun p => p.2.1) hc).symm,
      (congrArg (fun p => p.2.2) hc).symm⟩

theorem collectSchema_struct_post (env : Env) (media : String) (t : GoType)
    (f : Factory) (fuel : Nat) (ref : String) (vec : Bool) (f' : Factory)
    (id : Nat)
    (hc : collectSchema env media t f fuel = some (ref, vec, f'))
    (hid : structId? (deferencePointer t) = some id) :
    vec = isVector t ∧
    ∃ e, lookupSeen f' id media = some e ∧ e.ref = ref ∧
      (FactoryWF env f →
        e.name = (makeStructName env media id).2 ∧
        e.ref = makeRefString e.name) := by
  cases fuel with
  | zero => exact absurd hc (by simp [collectSchema])
  | succ n =>
    simp only [collectSchema, hid] at hc
    cases hmemo : lookupSeen f id media with
    | some e0 =>
      rw [hmemo] at hc
      injection hc with hc
      have hr : e0.ref = ref := congrArg Prod.fst hc
      have hv : vec = isVector t := (congrArg (fun p => p.2.1) hc).symm
      have hf : f' = f := (congrArg (fun p => p.2.2) hc).symm
      refine ⟨hv, e0, ?_, hr, fun hwf => hwf id media e0 hmemo⟩
      rw [hf]
      exact hmemo
    | none =>
      rw [hmemo] at hc
      cases hms : makeSchema env media (.struct id)
          (putSeen f id media
            ⟨makeRefString (makeStructName env media id).2,
              (makeStructName env media id).2, zeroSchema⟩) n with
      | none =>
        rw [hms] at hc
        exact absurd hc (by simp)
      | some p =>
        obtain ⟨osch, f2⟩ := p
        rw [hms] at hc
        cases osch with
        | none => exact absurd hc (by simp)
        | some sch =>
          simp only at hc
          injection hc with hc
          have hr : makeRefString (makeStructName env media id).2 = ref :=
            congrArg Prod.fst hc
          have hv : vec = isVector t := (congrArg (fun p => p.2.1) hc).symm
          have hf : f' = putSeen (putSeen f2 id media
              ⟨makeRefString (makeStructName env media id).2,
                (makeStructName env media id).2,
                if media = xmlMedia
                  then withXmlRoot sch (makeStructName env media id).1 else sch⟩)
              id media
              ⟨makeRefString (makeStructName env media id).2,
                (makeStructName env media id).2,
                if media = xmlMedia
                  then withXmlRoot sch (makeStructName env media id).1 else sch⟩ :=
            (congrArg (fun p => p.2.2) hc).symm
          refine ⟨hv,
            ⟨makeRefString (makeStructName env media id).2,
              (makeStructName env media id).2,
              if media = xmlMedia
                then withXmlRoot sch (makeStructName env media id).1 else sch⟩,
            ?_, hr, fun _ => ⟨rfl, rfl⟩⟩
          rw [hf]
          unfold lookupSeen putSeen
          rw [lookupA_putAssoc]
          simp

theorem nodupKeys_components (f : Factory) : NodupKeys (components f) := by
  have hgen : ∀ (xs : Factory) (acc : List (String × Schema)), NodupKeys acc →
      NodupKeys (xs.foldl (fun acc e => putAssoc acc e.2.name e.2.schema) acc) := by
    intro xs
    induction xs with
    | nil => intro acc h; exact h
    | cons p t ih =>
      intro acc h
      exact ih _ (nodupKeys_putAssoc p.2.name p.2.schema h)
  exact hgen f [] (by simp [NodupKeys])

theorem components_fold_lookup_none {xs : Factory}
    {acc : List (String × Schema)} {nm : String}
    (h : lookupA (xs.foldl (fun acc e => putAssoc acc e.2.name e.2.schema) acc) nm
      = none) :
    lookupA acc nm = none ∧ ∀ e ∈ xs, e.2.name ≠ nm := by
  induction xs generalizing acc with
  | nil => exact ⟨h, by simp⟩
  | cons p t ih =>
    rw [List.foldl_cons] at h
    obtain ⟨hacc, ht⟩ := ih h
    rw [lookupA_putAssoc] at hacc
    by_cases hp : nm = p.2.name
    · rw [if_pos hp] at hacc
      exact absurd hacc (by simp)
    · rw [if_neg hp] at hacc
      refine ⟨hacc, ?_⟩
      intro e he
      rcases List.mem_cons.mp he with h1 | h2
      · rw [h1]
        exact fun hh => hp hh.symm
      · exact ht e h2

theorem components_lookup_isSome_of_mem {f : Factory} {k : Nat × String}
    {e : SeenEntry} (h : (k, e) ∈ f) :
    (lookupA (components f) e.name).isSome = true := by
  cases hl : lookupA (components f) e.name with
  | some _ => rfl
  | none =>
    obtain ⟨_, hall⟩ := components_fold_lookup_none hl
    exact absurd rfl (hall (k, e) h)

/-- C2: `MakeSchema` is idempotent: a successful call determines every
later call on the same type and media — the same schema (hence the same
$ref string) and the same factory state are returned for any positive
fuel — and when the collected base type is a struct, `Components()` holds
exactly one schema entry under that struct's component name. -/
theorem MakeSchema_idempotent :
    ∀ (env : Env) (media : String) (rootType : GoType) (f : Factory)
      (n : Nat) (s1 : Schema) (f1 : Factory),
      FactoryWF env f →
      MakeSchema env media rootType f n = some (s1, f1) →
      (∀ m, 1 ≤ m → MakeSchema env media rootType f1 m = some (s1, f1)) ∧
      (∀ id, structId? (deferencePointer (stripRootPointer rootType)) = some id →
        countName (components f1) ((makeStructName env media id).2) = 1) := by
  intro env media rootType f n s1 f1 hwf hmk
  unfold MakeSchema at hmk
  cases hc : collectSchema env media (stripRootPointer rootType) f n with
  | none => rw [hc] at hmk; exact absurd hmk (by simp)
  | some trip =>
    obtain ⟨ref, vec, f'⟩ := trip
    rw [hc] at hmk
    simp only at hmk
    injection hmk with hmk
    have hs1 : (if vec then itemsRefSchema ref else refSchema ref) = s1 :=
      congrArg Prod.fst hmk
    have hf1 : f' = f1 := congrArg Prod.snd hmk
    cases hid : structId? (deferencePointer (stripRootPointer rootType)) with
    | none =>
      obtain ⟨href, hvec, hff⟩ := collectSchema_nonstruct env media _ f n
        ref vec f' hc hid
      constructor
      · intro m hm
        obtain ⟨m', rfl⟩ := Nat.exists_eq_add_of_le hm
        unfold MakeSchema
        have hsecond : collectSchema env media (stripRootPointer rootType) f1
            (1 + m') = some (ref, vec, f1) := by
          have : (1 + m') = m' + 1 := by omega
          rw [this]
          simp only [collectSchema, hid]
          rw [href, hvec]
        rw [hsecond]
        simp only
        rw [hs1]
      · intro id hid2
        exact absurd hid2 (by simp)
    | some id =>
      obtain ⟨hvec, e, hlook, heref, hename⟩ :=
        collectSchema_struct_post env media _ f n ref vec f' id hc hid
      rw [hf1] at hlook
      constructor
      · intro m hm
        obtain ⟨m', rfl⟩ := Nat.exists_eq_add_of_le hm
        unfold MakeSchema
        have hsecond : collectSchema env media (stripRootPointer rootType) f1
            (1 + m') = some (ref, vec, f1) := by
          have h1 : (1 + m') = m' + 1 := by omega
          rw [h1]
          simp only [collectSchema, hid, hlook]
          rw [heref, hvec]
        rw [hsecond]
        simp only
        rw [hs1]
      · intro id2 hid2
        injection hid2 with hid2
        subst hid2
        have hmem : ((id, media), e) ∈ f1 := lookupA_mem hlook
        have hsome := components_lookup_isSome_of_mem hmem
        rw [(hename hwf).1] at hsome
        exact countP_eq_one_of_nodup_lookup (nodupKeys_components f1) hsome

/-- Witness for C2: a concrete one-struct environment, starting from the
empty factory (which is trivially well-formed); the second call with fuel 7
reproduces the first call's output exactly. -/
theorem MakeSchema_idempotent_witness :
    MakeSchema (fun _ => ⟨"User", "app/model",
        [⟨"Name", false, [("json", "name")], .str, false⟩]⟩) jsonMedia
      (.struct 0)
      [((0, jsonMedia),
        ⟨"#/components/schemas/Json_Model_User", "Json_Model_User",
          .mk "" "object" "" "" [("name", typeSchema "string")] none
            ["name"] none none⟩)] 7
      = some (refSchema "#/components/schemas/Json_Model_User",
        [((0, jsonMedia),
          ⟨"#/components/schemas/Json_Model_User", "Json_Model_User",
            .mk "" "object" "" "" [("name", typeSchema "string")] none
              ["name"] none none⟩)]) := by
  have hwf : Swagger.FactoryWF (fun _ => ⟨"User", "app/model",
      [⟨"Name", false, [("json", "name")], .str, false⟩]⟩) emptyFactory := by
    intro id med e h
    exact absurd h (by simp [lookupSeen, emptyFactory])
  exact (MakeSchema_idempotent (fun _ => ⟨"User", "app/model",
    [⟨"Name", false, [("json", "name")], .str, false⟩]⟩) jsonMedia
    (.struct 0) emptyFactory 9
    (refSchema "#/components/schemas/Json_Model_User")
    [((0, jsonMedia),
      ⟨"#/components/schemas/Json_Model_User", "Json_Model_User",
        .mk "" "object" "" "" [("name", typeSchema "string")] none
          ["name"] none none⟩)] hwf rfl).1 7 (by omega)

end Swagger

/-! ## Claim C1: termination of cycle-safe schema collection

The termination argument mirrors the source's memoization: a struct type
is reserved in the memo table before its fields are walked, so the number
of environment struct identifiers missing from the table strictly
decreases at every fresh struct visit.  In the fueled embedding this
becomes: sufficient fuel exists for every well-formed input.  The proof
needs fuel monotonicity (more fuel never changes a successful result) and
that the memo table only grows. -/

namespace Swagger

/-- One fuel step preserves successful `collectSchema` results. -/
def StepCollect (n : Nat) : Prop :=
  ∀ (env : Env) (media : String) (t : GoType) (f : Factory)
    (r : String × Bool × Factory),
    collectSchema env media t f n = some r →
    collectSchema env media t f (n + 1) = some r

/-- One fuel step preserves successful `makeSchema` results. -/
def StepMake (n : Nat) : Prop :=
  ∀ (env : Env) (media : String) (t : GoType) (f : Factory)
    (r : Option Schema × Factory),
    makeSchema env media t f n = some r →
    makeSchema env media t f (n + 1) = some r

/-- One fuel step preserves successful `makeFields` results. -/
def StepFields (n : Nat) : Prop :=
  ∀ (env : Env) (media : String) (flds : List GoField) (schema : Schema)
    (f : Factory) (r : Schema × Factory),
    makeFields env media flds schema f n = some r →
    makeFields env media flds schema f (n + 1) = some r

/-- One fuel step preserves successful `inferSchema` results. -/
def StepInfer (n : Nat) : Prop :=
  ∀ (env : Env) (media : String) (t : GoType) (f : Factory)
    (r : Schema × Factory),
    inferSchema env media t f n = some r →
    inferSchema env media t f (n + 1) = some r

/-- One fuel step preserves successful `inferStruct` results. -/
def StepIStruct (n : Nat) : Prop :=
  ∀ (env : Env) (media : String) (t : GoType) (f : Factory)
    (r : Schema × Factory),
    inferStruct env media t f n = some r →
    inferStruct env media t f (n + 1) = some r

/-- One fuel step preserves successful `inferArray` results. -/
def StepIArray (n : Nat) : Prop :=
  ∀ (env : Env) (media : String) (t : GoType) (f : Factory)
    (r : Schema × Factory),
    inferArray env media t f n = some r →
    inferArray env media t f (n + 1) = some r

/-- One fuel step preserves successful `inferMap` results. -/
def StepIMap (n : Nat) : Prop :=
  ∀ (env : Env) (media : String) (t : GoType) (f : Factory)
    (r : Schema × Factory),
    inferMap env media t f n = some r →
    inferMap env media t f (n + 1) = some r

theorem stepAll : ∀ n : Nat,
    StepCollect n ∧ StepMake n ∧ StepFields n ∧ StepInfer n ∧
    StepIStruct n ∧ StepIArray n ∧ StepIMap n := by
  intro n
  induction n with
  | zero =>
    refine ⟨?_, ?_, ?_, ?_, ?_, ?_, ?_⟩
    · intro env media t f r h
      exact absurd h (by simp [collectSchema])
    · intro env media t f r h
      exact absurd h (by simp [makeSchema])
    · intro env media flds schema f r h
      exact absurd h (by simp [makeFields])
    · intro env media t f r h
      exact absurd h (by simp [inferSchema])
    · intro env media t f r h
      exact absurd h (by simp [inferStruct])
    · intro env media t f r h
      exact absurd h (by simp [inferArray])
    · intro env media t f r h
      exact absurd h (by simp [inferMap])
  | succ n ih =>
    obtain ⟨ihc, ihm, ihf, ihi, ihs, iha, ihp⟩ := ih
    have hcol : StepCollect (n + 1) := by
      intro env media t f r h
      simp only [collectSchema] at h ⊢
      cases hid : structId? (deferencePointer t) with
      | none => simp only [hid] at h ⊢; exact h
      | some id =>
        simp only [hid] at h ⊢
        cases hmemo : lookupSeen f id media with
        | some e => simp only [hmemo] at h ⊢; exact h
        | none =>
          simp only [hmemo] at h ⊢
          cases hms : makeSchema env media (.struct id)
              (putSeen f id media
                ⟨makeRefString (makeStructName env media id).2,
                  (makeStructName env media id).2, zeroSchema⟩) n with
          | none =>
            simp only [hms] at h
            exact absurd h (by simp)
          | some p =>
            obtain ⟨osch, f2⟩ := p
            have hms1 := ihm env media (.struct id) _ (osch, f2) hms
            cases osch with
            | none =>
              simp only [hms] at h
              exact absurd h (by simp)
            | some sch =>
              simp only [hms] at h
              simp only [hms1]
              exact h
    have hmake : StepMake (n + 1) := by
      intro env media t f r h
      simp only [makeSchema] at h ⊢
      cases hid : structId? (deferencePointer t) with
      | none => simp only [hid] at h ⊢; exact h
      | some id =>
        simp only [hid] at h ⊢
        cases hmf : makeFields env media ((env id).fields) newSchema f n with
        | none =>
          simp only [hmf] at h
          exact absurd h (by simp)
        | some p =>
          simp only [hmf] at h
          simp only [ihf env media ((env id).fields) newSchema f p hmf]
          exact h
    have hflds : StepFields (n + 1) := by
      intro env media flds schema f r h
      simp only [makeFields] at h ⊢
      cases flds with
      | nil => exact h
      | cons fld rest =>
        by_cases hskip : (fld.anonymous || fld.isXmlName) = true
        · simp only [hskip, if_true] at h ⊢
          exact ihf env media rest schema f r h
        · have hskip' : (fld.anonymous || fld.isXmlName) = false := by
            simpa using hskip
          simp only [hskip', Bool.false_eq_true, if_false] at h ⊢
          cases hinf : inferSchema env media fld.ftype f n with
          | none =>
            simp only [hinf] at h
            exact absurd h (by simp)
          | some p =>
            simp only [hinf] at h
            simp only [ihi env media fld.ftype f p hinf]
            exact ihf env media rest _ p.2 r h
    have hinf : StepInfer (n + 1) := by
      intro env media t f r h
      simp only [inferSchema] at h ⊢
      cases t with
      | ptr t2 => exact ihi env media t2 f r h
      | struct id => exact ihs env media (.struct id) f r h
      | slice t2 => exact iha env media t2 f r h
      | array t2 => exact iha env media t2 f r h
      | mapv t2 => exact ihp env media t2 f r h
      | str => exact h
      | boolean => exact h
      | int => exact h
      | float => exact h
      | other => exact h
    have histr : StepIStruct (n + 1) := by
      intro env media t f r h
      simp only [inferStruct] at h ⊢
      cases hcs : collectSchema env media t f n with
      | none =>
        simp only [hcs] at h
        exact absurd h (by simp)
      | some p =>
        obtain ⟨ref, isVec, f1⟩ := p
        simp only [hcs] at h
        simp only [ihc env media t f (ref, isVec, f1) hcs]
        exact h
    have hiarr : StepIArray (n + 1) := by
      intro env media t f r h
      simp only [inferArray] at h ⊢
      cases his : inferSchema env media t f n with
      | none =>
        simp only [his] at h
        exact absurd h (by simp)
      | some p =>
        simp only [his] at h
        simp only [ihi env media t f p his]
        exact h
    have himap : StepIMap (n + 1) := by
      intro env media t f r h
      simp only [inferMap] at h ⊢
      cases his : inferSchema env media t f n with
      | none =>
        simp only [his] at h
        exact absurd h (by simp)
      | some p =>
        simp only [his] at h
        simp only [ihi env media t f p his]
        exact h
    exact ⟨hcol, hmake, hflds, hinf, histr, hiarr, himap⟩

theorem collectSchema_mono {env : Env} {media : String} {t : GoType}
    {f : Factory} {r : String × Bool × Factory} {n m : Nat} (hnm : n ≤ m)
    (h : collectSchema env media t f n = some r) :
    collectSchema env media t f m = some r := by
  induction m with
  | zero =>
    have : n = 0 := Nat.le_zero.mp hnm
    rw [this] at h; exact h
  | succ m ihm =>
    rcases Nat.lt_or_ge n (m + 1) with hlt | hge
    · exact (stepAll m).1 env media t f r (ihm (Nat.lt_succ_iff.mp hlt))
    · have : n = m + 1 := Nat.le_antisymm hnm hge
      rw [this] at h; exact h

theorem inferSchema_mono {env : Env} {media : String} {t : GoType}
    {f : Factory} {r : Schema × Factory} {n m : Nat} (hnm : n ≤ m)
    (h : inferSchema env media t f n = some r) :
    inferSchema env media t f m = some r := by
  induction m with
  | zero =>
    have : n = 0 := Nat.le_zero.mp hnm
    rw [this] at h; exact h
  | succ m ihm =>
    rcases Nat.lt_or_ge n (m + 1) with hlt | hge
    · exact (stepAll m).2.2.2.1 env media t f r (ihm (Nat.lt_succ_iff.mp hlt))
    · have : n = m + 1 := Nat.le_antisymm hnm hge
      rw [this] at h; exact h

theorem makeFields_mono {env : Env} {media : String} {flds : List GoField}
    {schema : Schema} {f : Factory} {r : Schema × Factory} {n m : Nat}
    (hnm : n ≤ m) (h : makeFields env media flds schema f n = some r) :
    makeFields env media flds schema f m = some r := by
  induction m with
  | zero =>
    have : n = 0 := Nat.le_zero.mp hnm
    rw [this] at h; exact h
  | succ m ihm =>
    rcases Nat.lt_or_ge n (m + 1) with hlt | hge
    · exact (stepAll m).2.2.1 env media flds schema f r (ihm (Nat.lt_succ_iff.mp hlt))
    · have : n = m + 1 := Nat.le_antisymm hnm hge
      rw [this] at h; exact h

end Swagger

namespace Swagger

theorem hasKeyA_putSeen_mono {f : Factory} {k : Nat × String} (id : Nat)
    (media : String) (e : SeenEntry) (h : hasKeyA f k = true) :
    hasKeyA (putSeen f id media e) k = true := by
  unfold putSeen
  rw [hasKeyA_putAssoc, h]
  rfl

theorem hasKeyA_putSeen_self (f : Factory) (id : Nat) (media : String)
    (e : SeenEntry) : hasKeyA (putSeen f id media e) (id, media) = true := by
  unfold putSeen
  rw [hasKeyA_putAssoc]
  simp

/-- Memo growth for `collectSchema`. -/
def DomCollect (n : Nat) : Prop :=
  ∀ (env : Env) (media : String) (t : GoType) (f : Factory)
    (ref : String) (vec : Bool) (f' : Factory),
    collectSchema env media t f n = some (ref, vec, f') →
    ∀ k, hasKeyA f k = true → hasKeyA f' k = true

/-- Memo growth for `makeSchema`. -/
def DomMake (n : Nat) : Prop :=
  ∀ (env : Env) (media : String) (t : GoType) (f : Factory)
    (osch : Option Schema) (f' : Factory),
    makeSchema env media t f n = some (osch, f') →
    ∀ k, hasKeyA f k = true → hasKeyA f' k = true

/-- Memo growth for `makeFields`. -/
def DomFields (n : Nat) : Prop :=
  ∀ (env : Env) (media : String) (flds : List GoField) (schema : Schema)
    (f : Factory) (sch : Schema) (f' : Factory),
    makeFields env media flds schema f n = some (sch, f') →
    ∀ k, hasKeyA f k = true → hasKeyA f' k = true

/-- Memo growth for `inferSchema`. -/
def DomInfer (n : Nat) : Prop :=
  ∀ (env : Env) (media : String) (t : GoType) (f : Factory)
    (sch : Schema) (f' : Factory),
    inferSchema env media t f n = some (sch, f') →
    ∀ k, hasKeyA f k = true → hasKeyA f' k = true

/-- Memo growth for `inferStruct`. -/
def DomIStruct (n : Nat) : Prop :=
  ∀ (env : Env) (media : String) (t : GoType) (f : Factory)
    (sch : Schema) (f' : Factory),
    inferStruct env media t f n = some (sch, f') →
    ∀ k, hasKeyA f k = true → hasKeyA f' k = true

/-- Memo growth for `inferArray`. -/
def DomIArray (n : Nat) : Prop :=
  ∀ (env : Env) (media : String) (t : GoType) (f : Factory)
    (sch : Schema) (f' : Factory),
    inferArray env media t f n = some (sch, f') →
    ∀ k, hasKeyA f k = true → hasKeyA f' k = true

/-- Memo growth for `inferMap`. -/
def DomIMap (n : Nat) : Prop :=
  ∀ (env : Env) (media : String) (t : GoType) (f : Factory)
    (sch : Schema) (f' : Factory),
    inferMap env media t f n = some (sch, f') →
    ∀ k, hasKeyA f k = true → hasKeyA f' k = true

theorem domAll : ∀ n : Nat,
    DomCollect n ∧ DomMake n ∧ DomFields n ∧ DomInfer n ∧
    DomIStruct n ∧ DomIArray n ∧ DomIMap n := by
  intro n
  induction n with
  | zero =>
    refine ⟨?_, ?_, ?_, ?_, ?_, ?_, ?_⟩
    · intro env media t f ref vec f' h
      exact absurd h (by simp [collectSchema])
    · intro env media t f osch f' h
      exact absurd h (by simp [makeSchema])
    · intro env media flds schema f sch f' h
      exact absurd h (by simp [makeFields])
    · intro env media t f sch f' h
      exact absurd h (by simp [inferSchema])
    · intro env media t f sch f' h
      exact absurd h (by simp [inferStruct])
    · intro env media t f sch f' h
      exact absurd h (by simp [inferArray])
    · intro env media t f sch f' h
      exact absurd h (by simp [inferMap])
  | succ n ih =>
    obtain ⟨ihc, ihm, ihf, ihi, ihs, iha, ihp⟩ := ih
    have hcol : DomCollect (n + 1) := by
      intro env media t f ref vec f' h k hk
      simp only [collectSchema] at h
      cases hid : structId? (deferencePointer t) with
      | none =>
        simp only [hid] at h
        simp only [Option.some.injEq, Prod.mk.injEq] at h
        obtain ⟨h1, h2, h3⟩ := h
        subst h3
        exact hk
      | some id =>
        simp only [hid] at h
        cases hmemo : lookupSeen f id media with
        | some e =>
          simp only [hmemo] at h
          simp only [Option.some.injEq, Prod.mk.injEq] at h
          obtain ⟨h1, h2, h3⟩ := h
          subst h3
          exact hk
        | none =>
          simp only [hmemo] at h
          cases hms : makeSchema env media (.struct id)
              (putSeen f id media
                ⟨makeRefString (makeStructName env media id).2,
                  (makeStructName env media id).2, zeroSchema⟩) n with
          | none =>
            simp only [hms] at h
            exact absurd h (by simp)
          | some p =>
            obtain ⟨osch, f2⟩ := p
            cases osch with
            | none =>
              simp only [hms] at h
              exact absurd h (by simp)
            | some sch =>
              simp only [hms] at h
              simp only [Option.some.injEq, Prod.mk.injEq] at h
              obtain ⟨hq1, hq2, hq3⟩ := h
              subst hq3
              have h1 : hasKeyA (putSeen f id media
                  ⟨makeRefString (makeStructName env media id).2,
                    (makeStructName env media id).2, zeroSchema⟩) k = true :=
                hasKeyA_putSeen_mono id media _ hk
              have h2 : hasKeyA f2 k = true :=
                ihm env media (.struct id) _ (some sch) f2 hms k h1
              exact hasKeyA_putSeen_mono id media _
                (hasKeyA_putSeen_mono id media _ h2)
    have hmake : DomMake (n + 1) := by
      intro env media t f osch f' h k hk
      simp only [makeSchema] at h
      cases hid : structId? (deferencePointer t) with
      | none =>
        simp only [hid] at h
        simp only [Option.some.injEq, Prod.mk.injEq] at h
        obtain ⟨h1, h2⟩ := h
        subst h2
        exact hk
      | some id =>
        simp only [hid] at h
        cases hmf : makeFields env media ((env id).fields) newSchema f n with
        | none =>
          simp only [hmf] at h
          exact absurd h (by simp)
        | some p =>
          simp only [hmf] at h
          simp only [Option.some.injEq, Prod.mk.injEq] at h
          obtain ⟨h1, h2⟩ := h
          subst h2
          exact ihf env media ((env id).fields) newSchema f p.1 p.2
            (by rw [hmf]) k hk
    have hflds : DomFields (n + 1) := by
      intro env media flds schema f sch f' h k hk
      simp only [makeFields] at h
      cases flds with
      | nil =>
        simp only [Option.some.injEq, Prod.mk.injEq] at h
        obtain ⟨h1, h2⟩ := h
        subst h2
        exact hk
      | cons fld rest =>
        by_cases hskip : (fld.anonymous || fld.isXmlName) = true
        · simp only [hskip, if_true] at h
          exact ihf env media rest schema f sch f' h k hk
        · have hskip' : (fld.anonymous || fld.isXmlName) = false := by
            simpa using hskip
          simp only [hskip', Bool.false_eq_true, if_false] at h
          cases hinf : inferSchema env media fld.ftype f n with
          | none =>
            simp only [hinf] at h
            exact absurd h (by simp)
          | some p =>
            simp only [hinf] at h
            have h1 : hasKeyA p.2 k = true :=
              ihi env media fld.ftype f p.1 p.2 (by rw [hinf]) k hk
            exact ihf env media rest _ p.2 sch f' h k h1
    have hinf : DomInfer (n + 1) := by
      intro env media t f sch f' h k hk
      simp only [inferSchema] at h
      cases t with
      | ptr t2 => exact ihi env media t2 f sch f' h k hk
      | struct id => exact ihs env media (.struct id) f sch f' h k hk
      | slice t2 => exact iha env media t2 f sch f' h k hk
      | array t2 => exact iha env media t2 f sch f' h k hk
      | mapv t2 => exact ihp env media t2 f sch f' h k hk
      | str =>
        simp only [Option.some.injEq, Prod.mk.injEq] at h
        obtain ⟨h1, h2⟩ := h
        subst h2
        exact hk
      | boolean =>
        simp only [Option.some.injEq, Prod.mk.injEq] at h
        obtain ⟨h1, h2⟩ := h
        subst h2
        exact hk
      | int =>
        simp only [Option.some.injEq, Prod.mk.injEq] at h
        obtain ⟨h1, h2⟩ := h
        subst h2
        exact hk
      | float =>
        simp only [Option.some.injEq, Prod.mk.injEq] at h
        obtain ⟨h1, h2⟩ := h
        subst h2
        exact hk
      | other =>
        simp only [Option.some.injEq, Prod.mk.injEq] at h
        obtain ⟨h1, h2⟩ := h
        subst h2
        exact hk
    have histr : DomIStruct (n + 1) := by
      intro env media t f sch f' h k hk
      simp only [inferStruct] at h
      cases hcs : collectSchema env media t f n with
      | none =>
        simp only [hcs] at h
        exact absurd h (by simp)
      | some p =>
        obtain ⟨ref, isVec, f1⟩ := p
        simp only [hcs] at h
        simp only [Option.some.injEq, Prod.mk.injEq] at h
        obtain ⟨h1, h2⟩ := h
        subst h2
        exact ihc env media t f ref isVec f1 hcs k hk
    have hiarr : DomIArray (n + 1) := by
      intro env media t f sch f' h k hk
      simp only [inferArray] at h
      cases his : inferSchema env media t f n with
      | none =>
        simp only [his] at h
        exact absurd h (by simp)
      | some p =>
        simp only [his] at h
        simp only [Option.some.injEq, Prod.mk.injEq] at h
        obtain ⟨h1, h2⟩ := h
        subst h2
        exact ihi env media t f p.1 p.2 (by rw [his]) k hk
    have himap : DomIMap (n + 1) := by
      intro env media t f sch f' h k hk
      simp only [inferMap] at h
      cases his : inferSchema env media t f n with
      | none =>
        simp only [his] at h
        exact absurd h (by simp)
      | some p =>
        simp only [his] at h
        simp only [Option.some.injEq, Prod.mk.injEq] at h
        obtain ⟨h1, h2⟩ := h
        subst h2
        exact ihi env media t f p.1 p.2 (by rw [his]) k hk
    exact ⟨hcol, hmake, hflds, hinf, histr, hiarr, himap⟩

end Swagger

namespace Swagger

/-- Bool membership in a Nat list. -/
def natMem (l : List Nat) (x : Nat) : Bool := l.any (fun y => decide (y = x))

/-- Every element of `xs` occurs in `univ` (Bool). -/
def natsIn (xs univ : List Nat) : Bool := xs.all (fun x => natMem univ x)

/-- Struct identifiers occurring anywhere in a type expression. -/
def structIds : GoType → List Nat
  | .ptr t => structIds t
  | .slice t => structIds t
  | .array t => structIds t
  | .mapv t => structIds t
  | .struct id => [id]
  | _ => []

/-- Struct identifiers occurring in a field list's types. -/
def fieldIds : List GoField → List Nat
  | [] => []
  | fld :: rest => structIds fld.ftype ++ fieldIds rest

/-- The environment is closed over a finite universe of identifiers:
every field of every universe struct mentions universe structs only. -/
def envClosed (env : Env) (univ : List Nat) : Bool :=
  univ.all (fun id => natsIn (fieldIds (env id).fields) univ)

/-- The struct refers to itself: some field's type mentions its own
identifier (directly or through pointer/slice/array/map wrappers). -/
def selfRefB (env : Env) (id : Nat) : Bool :=
  natMem (fieldIds (env id).fields) id

/-- The number of universe identifiers not yet reserved in the memo table
for the given media: the measure that putSeen-before-recursion strictly
decreases. -/
def missing (univ : List Nat) (media : String) (f : Factory) : Nat :=
  (univ.filter (fun id => !(hasKeyA f (id, media)))).length

theorem natMem_mem {l : List Nat} {x : Nat} : natMem l x = true ↔ x ∈ l := by
  unfold natMem
  rw [List.any_eq_true]
  constructor
  · rintro ⟨y, hy, hxy⟩
    exact (of_decide_eq_true hxy) ▸ hy
  · intro h
    exact ⟨x, h, by simp⟩

theorem natsIn_single {u : List Nat} {id : Nat}
    (h : natsIn [id] u = true) : natMem u id = true := by
  simpa [natsIn] using h

theorem natsIn_append {a b u : List Nat} (h : natsIn (a ++ b) u = true) :
    natsIn a u = true ∧ natsIn b u = true := by
  simpa [natsIn, List.all_append] using h

theorem structIds_deref (t : GoType) :
    structIds (deferencePointer t) = structIds t := by
  induction t with
  | ptr t ih => simpa [deferencePointer, structIds] using ih
  | slice t ih => simpa [deferencePointer, structIds] using ih
  | array t ih => simpa [deferencePointer, structIds] using ih
  | mapv t _ => rfl
  | struct id => rfl
  | str => rfl
  | boolean => rfl
  | int => rfl
  | float => rfl
  | other => rfl

theorem structIds_of_deref_struct {t : GoType} {id : Nat}
    (h : structId? (deferencePointer t) = some id) : structIds t = [id] := by
  have h2 : structIds (deferencePointer t) = [id] := by
    cases hd : deferencePointer t <;> rw [hd] at h <;>
      simp [structId?] at h
    · rw [h]
      rfl
  rw [← structIds_deref t, h2]

theorem envClosed_spec {env : Env} {univ : List Nat} {id : Nat}
    (hcl : envClosed env univ = true) (hid : natMem univ id = true) :
    natsIn (fieldIds (env id).fields) univ = true := by
  have hmem : id ∈ univ := natMem_mem.mp hid
  exact (List.all_eq_true.mp hcl) id hmem

theorem hasKeyA_false_of_lookupSeen_none {f : Factory} {id : Nat}
    {media : String} (h : lookupSeen f id media = none) :
    hasKeyA f (id, media) = false := by
  unfold hasKeyA
  unfold lookupSeen at h
  rw [h]
  rfl

theorem length_filter_mono {α : Type u} (l : List α) (p q : α → Bool)
    (h : ∀ a, p a = true → q a = true) :
    (l.filter p).length ≤ (l.filter q).length := by
  rw [← List.countP_eq_length_filter, ← List.countP_eq_length_filter]
  exact List.countP_mono_left (fun a _ hpa => h a hpa)

theorem missing_mono {univ : List Nat} {media : String} {f f' : Factory}
    (h : ∀ kk, hasKeyA f kk = true → hasKeyA f' kk = true) :
    missing univ media f' ≤ missing univ media f := by
  unfold missing
  refine length_filter_mono univ _ _ ?_
  intro a ha
  simp only [Bool.not_eq_true'] at ha ⊢
  cases hfa : hasKeyA f (a, media) with
  | false => rfl
  | true => exact absurd (h _ hfa) (by rw [ha]; simp)

theorem missing_putSeen_lt {univ : List Nat} {media : String} {f : Factory}
    {id : Nat} (e : SeenEntry)
    (hkey : hasKeyA f (id, media) = false) (hmem : natMem univ id = true) :
    missing univ media (putSeen f id media e) < missing univ media f := by
  induction univ with
  | nil => simp [natMem] at hmem
  | cons u rest ih =>
    have hle : missing rest media (putSeen f id media e) ≤ missing rest media f :=
      missing_mono (fun kk hk => hasKeyA_putSeen_mono id media e hk)
    unfold missing at hle ⊢
    rw [List.filter_cons, List.filter_cons]
    by_cases hu : u = id
    · subst hu
      rw [hkey]
      simp only [Bool.not_false, if_true]
      rw [hasKeyA_putSeen_self]
      simp only [Bool.not_true, Bool.false_eq_true, if_false, List.length_cons]
      omega
    · have hne : ((u, media) = (id, media)) = False := by
        simp [hu]
      have hsame : hasKeyA (putSeen f id media e) (u, media)
          = hasKeyA f (u, media) := by
        unfold putSeen
        rw [hasKeyA_putAssoc]
        simp [hu]
      rw [hsame]
      have hmem' : natMem rest id = true := by
        simp only [natMem, List.any_cons] at hmem
        rcases Bool.or_eq_true_iff.mp hmem with h1 | h2
        · exact absurd (of_decide_eq_true h1) hu
        · exact h2
      have hlt := ih hmem'
      unfold missing at hlt
      by_cases hP : (!(hasKeyA f (u, media))) = true
      · rw [hP]
        simp only [if_true, List.length_cons]
        omega
      · have hP' : (!(hasKeyA f (u, media))) = false := by simpa using hP
        rw [hP']
        simpa using hlt

theorem missing_pos {univ : List Nat} {media : String} {f : Factory}
    {id : Nat} (hmem : natMem univ id = true)
    (hkey : hasKeyA f (id, media) = false) :
    1 ≤ missing univ media f := by
  have hm : id ∈ univ.filter (fun x => !(hasKeyA f (x, media))) :=
    List.mem_filter.mpr ⟨natMem_mem.mp hmem, by rw [hkey]; rfl⟩
  have := List.length_pos.mpr (List.ne_nil_of_mem hm)
  unfold missing
  omega

end Swagger

namespace Swagger

theorem collectSchema_nonstruct_eq (env : Env) (media : String) (t : GoType)
    (f : Factory) (n : Nat) (hid : structId? (deferencePointer t) = none) :
    collectSchema env media t f (n + 1) = some ("", isVector t, f) := by
  simp only [collectSchema, hid]

theorem collectSchema_memo_eq (env : Env) (media : String) (t : GoType)
    (f : Factory) (n : Nat) (id : Nat) (e : SeenEntry)
    (hid : structId? (deferencePointer t) = some id)
    (hm : lookupSeen f id media = some e) :
    collectSchema env media t f (n + 1) = some (e.ref, isVector t, f) := by
  simp only [collectSchema, hid, hm]

theorem collectSchema_fresh_eq (env : Env) (media : String) (t : GoType)
    (f : Factory) (n : Nat) (id : Nat) (sch : Schema) (f2 : Factory)
    (hid : structId? (deferencePointer t) = some id)
    (hm : lookupSeen f id media = none)
    (hms : makeSchema env media (.struct id)
        (putSeen f id media
          ⟨makeRefString (makeStructName env media id).2,
            (makeStructName env media id).2, zeroSchema⟩) n
      = some (some sch, f2)) :
    collectSchema env media t f (n + 1) =
      some (makeRefString (makeStructName env media id).2, isVector t,
        putSeen (putSeen f2 id media
          ⟨makeRefString (makeStructName env media id).2,
            (makeStructName env media id).2,
            if media = xmlMedia
              then withXmlRoot sch (makeStructName env media id).1 else sch⟩)
          id media
          ⟨makeRefString (makeStructName env media id).2,
            (makeStructName env media id).2,
            if media = xmlMedia
              then withXmlRoot sch (makeStructName env media id).1 else sch⟩) := by
  simp only [collectSchema, hid, hm, hms]

theorem makeSchema_struct_eq (env : Env) (media : String) (id : Nat)
    (f : Factory) (n : Nat) (sch : Schema) (f1 : Factory)
    (hmf : makeFields env media ((env id).fields) newSchema f n
      = some (sch, f1)) :
    makeSchema env media (.struct id) f (n + 1) = some (some sch, f1) := by
  simp only [makeSchema,
    show structId? (deferencePointer (GoType.struct id)) = some id from rfl, hmf]

theorem makeFields_skip_eq (env : Env) (media : String) (fld : GoField)
    (rest : List GoField) (schema : Schema) (f : Factory) (n : Nat)
    (hskip : (fld.anonymous || fld.isXmlName) = true) :
    makeFields env media (fld :: rest) schema f (n + 1) =
      makeFields env media rest schema f n := by
  simp only [makeFields, hskip, if_true]

theorem makeFields_go_eq (env : Env) (media : String) (fld : GoField)
    (rest : List GoField) (schema : Schema) (f : Factory) (n : Nat)
    (s0 : Schema) (f1 : Factory)
    (hskip : (fld.anonymous || fld.isXmlName) = false)
    (hinf : inferSchema env media fld.ftype f n = some (s0, f1)) :
    makeFields env media (fld :: rest) schema f (n + 1) =
      makeFields env media rest
        (addProperty schema
          (mediaAdjust media fld (setDescription s0 (tagGet fld.tags "description"))).1
          (mediaAdjust media fld (setDescription s0 (tagGet fld.tags "description"))).2.2
          (mediaAdjust media fld (setDescription s0 (tagGet fld.tags "description"))).2.1)
        f1 n := by
  simp only [makeFields, hskip, Bool.false_eq_true, if_false, hinf]

theorem inferStruct_eq (env : Env) (media : String) (t : GoType) (f : Factory)
    (n : Nat) (ref : String) (vec : Bool) (f1 : Factory)
    (hc : collectSchema env media t f n = some (ref, vec, f1)) :
    inferStruct env media t f (n + 1) =
      some (if vec then itemsRefSchema ref else refSchema ref, f1) := by
  simp only [inferStruct, hc]

theorem inferArray_eq (env : Env) (media : String) (t : GoType) (f : Factory)
    (n : Nat) (s : Schema) (f1 : Factory)
    (hinf : inferSchema env media t f n = some (s, f1)) :
    inferArray env media t f (n + 1) = some (arraySchema s, f1) := by
  simp only [inferArray, hinf]

theorem inferMap_eq (env : Env) (media : String) (t : GoType) (f : Factory)
    (n : Nat) (s : Schema) (f1 : Factory)
    (hinf : inferSchema env media t f n = some (s, f1)) :
    inferMap env media t f (n + 1) = some (mapSchema s, f1) := by
  simp only [inferMap, hinf]

/-- Existence of sufficient fuel for `collectSchema`. -/
def CollectEx (env : Env) (univ : List Nat) (media : String) (f : Factory) : Prop :=
  ∀ t : GoType, natsIn (structIds t) univ = true →
    ∃ n r, collectSchema env media t f n = some r

/-- Existence of sufficient fuel for `inferSchema`. -/
def InferEx (env : Env) (univ : List Nat) (media : String) (f : Factory) : Prop :=
  ∀ t : GoType, natsIn (structIds t) univ = true →
    ∃ n r, inferSchema env media t f n = some r

/-- Existence of sufficient fuel for `makeFields`. -/
def FieldsEx (env : Env) (univ : List Nat) (media : String) (f : Factory) : Prop :=
  ∀ (flds : List GoField) (schema : Schema),
    natsIn (fieldIds flds) univ = true →
    ∃ n r, makeFields env media flds schema f n = some r

theorem schemaEx (env : Env) (univ : List Nat) (media : String)
    (hcl : envClosed env univ = true) :
    ∀ (k : Nat) (f : Factory), missing univ media f ≤ k →
      CollectEx env univ media f ∧ InferEx env univ media f ∧
      FieldsEx env univ media f := by
  intro k
  induction k using Nat.strong_induction_on with
  | _ k ihk =>
    have hallc : ∀ f, missing univ media f ≤ k → CollectEx env univ media f := by
      intro f hmf t hids
      cases hid : structId? (deferencePointer t) with
      | none =>
        exact ⟨1, ("", isVector t, f), collectSchema_nonstruct_eq env media t f 0 hid⟩
      | some id =>
        cases hmemo : lookupSeen f id media with
        | some e =>
          exact ⟨1, (e.ref, isVector t, f),
            collectSchema_memo_eq env media t f 0 id e hid hmemo⟩
        | none =>
          have hsid : structIds t = [id] := structIds_of_deref_struct hid
          have hidmem : natMem univ id = true := natsIn_single (hsid ▸ hids)
          have hflin : natsIn (fieldIds (env id).fields) univ = true :=
            envClosed_spec hcl hidmem
          have hkey : hasKeyA f (id, media) = false :=
            hasKeyA_false_of_lookupSeen_none hmemo
          have hlt : missing univ media (putSeen f id media
              ⟨makeRefString (makeStructName env media id).2,
                (makeStructName env media id).2, zeroSchema⟩)
              < missing univ media f :=
            missing_putSeen_lt _ hkey hidmem
          have hpos : 1 ≤ missing univ media f := missing_pos hidmem hkey
          have hk2 : k - 1 < k := by omega
          have hk1 : missing univ media (putSeen f id media
              ⟨makeRefString (makeStructName env media id).2,
                (makeStructName env media id).2, zeroSchema⟩) ≤ k - 1 := by
            omega
          obtain ⟨_, _, hfex⟩ := ihk (k - 1) hk2 _ hk1
          obtain ⟨n, ⟨sch, f2⟩, hmf2⟩ := hfex ((env id).fields) newSchema hflin
          exact ⟨n + 2, _,
            collectSchema_fresh_eq env media t f (n + 1) id sch f2 hid hmemo
              (makeSchema_struct_eq env media id _ n sch f2 hmf2)⟩
    have halli : ∀ f, missing univ media f ≤ k → InferEx env univ media f := by
      intro f hmf t
      induction t with
      | ptr t2 ih =>
        intro hids
        obtain ⟨n, r, h⟩ := ih hids
        exact ⟨n + 1, r, h⟩
      | struct id =>
        intro hids
        obtain ⟨n, r, h⟩ := hallc f hmf (.struct id) hids
        obtain ⟨ref, vec, f1⟩ := r
        exact ⟨n + 2, (if vec then itemsRefSchema ref else refSchema ref, f1),
          inferStruct_eq env media (.struct id) f n ref vec f1 h⟩
      | slice t2 ih =>
        intro hids
        obtain ⟨n, r, h⟩ := ih hids
        obtain ⟨s, f1⟩ := r
        exact ⟨n + 2, (arraySchema s, f1), inferArray_eq env media t2 f n s f1 h⟩
      | array t2 ih =>
        intro hids
        obtain ⟨n, r, h⟩ := ih hids
        obtain ⟨s, f1⟩ := r
        exact ⟨n + 2, (arraySchema s, f1), inferArray_eq env media t2 f n s f1 h⟩
      | mapv t2 ih =>
        intro hids
        obtain ⟨n, r, h⟩ := ih hids
        obtain ⟨s, f1⟩ := r
        exact ⟨n + 2, (mapSchema s, f1), inferMap_eq env media t2 f n s f1 h⟩
      | str => exact fun _ => ⟨1, (typeSchema "string", f), rfl⟩
      | boolean => exact fun _ => ⟨1, (typeSchema "boolean", f), rfl⟩
      | int => exact fun _ => ⟨1, (typeSchema "integer", f), rfl⟩
      | float => exact fun _ => ⟨1, (typeSchema "number", f), rfl⟩
      | other => exact fun _ => ⟨1, (typeSchema "string", f), rfl⟩
    have hallf : ∀ (flds : List GoField) (schema : Schema) (f : Factory),
        missing univ media f ≤ k → natsIn (fieldIds flds) univ = true →
        ∃ n r, makeFields env media flds schema f n = some r := by
      intro flds
      induction flds with
      | nil => exact fun schema f _ _ => ⟨1, (schema, f), rfl⟩
      | cons fld rest ih =>
        intro schema f hmf hids
        obtain ⟨h1, h2⟩ := natsIn_append
          (show natsIn (structIds fld.ftype ++ fieldIds rest) univ = true from hids)
        by_cases hskip : (fld.anonymous || fld.isXmlName) = true
        · obtain ⟨n, r, h⟩ := ih schema f hmf h2
          exact ⟨n + 1, r, by
            rw [makeFields_skip_eq env media fld rest schema f n hskip]
            exact h⟩
        · have hskip' : (fld.anonymous || fld.isXmlName) = false := by
            simpa using hskip
          obtain ⟨n1, ⟨s0, f1⟩, hinf⟩ := halli f hmf fld.ftype h1
          have hgrow := (domAll n1).2.2.2.1 env media fld.ftype f s0 f1 hinf
          have hmf1 : missing univ media f1 ≤ k :=
            le_trans (missing_mono hgrow) hmf
          obtain ⟨n2, ⟨sch2, f2⟩, hrest⟩ := ih
            (addProperty schema
              (mediaAdjust media fld (setDescription s0 (tagGet fld.tags "description"))).1
              (mediaAdjust media fld (setDescription s0 (tagGet fld.tags "description"))).2.2
              (mediaAdjust media fld (setDescription s0 (tagGet fld.tags "description"))).2.1)
            f1 hmf1 h2
          have hinfM : inferSchema env media fld.ftype f (max n1 n2) = some (s0, f1) :=
            inferSchema_mono (le_max_left _ _) hinf
          have hrestM := makeFields_mono (le_max_right n1 n2) hrest
          refine ⟨max n1 n2 + 1, (sch2, f2), ?_⟩
          rw [makeFields_go_eq env media fld rest schema f (max n1 n2) s0 f1
            hskip' hinfM]
          exact hrestM
    intro f hmf
    exact ⟨hallc f hmf, halli f hmf, fun flds schema hids =>
      hallf flds schema f hmf hids⟩

end Swagger

namespace Swagger

/-- The reference string reserved for a struct identifier under a media
type. -/
def refOfStruct (env : Env) (media : String) (id : Nat) : String :=
  makeRefString (makeStructName env media id).2

/-- C1: for every struct type in a finite, closed environment — in
particular every struct that refers to itself through a field of its own
type, directly or via pointer/slice wrappers (`selfRefB`) — schema
collection terminates: some finite fuel suffices, the call returns the
struct's own reserved reference string, and the memo table registers the
type under that same reference (it was reserved before the field walk, so
the recursive visit of a self-referencing field resolved to it instead of
recursing forever). -/
theorem collectSchema_cycle_terminates :
    ∀ (env : Env) (univ : List Nat) (media : String) (id : Nat),
      envClosed env univ = true → natMem univ id = true →
      selfRefB env id = true →
      ∃ n f', collectSchema env media (.struct id) emptyFactory n =
          some (refOfStruct env media id, false, f') ∧
        (lookupSeen f' id media).map SeenEntry.ref
          = some (refOfStruct env media id) := by
  intro env univ media id hcl hidm _href
  have hids : natsIn (structIds (.struct id)) univ = true := by
    simpa [natsIn, structIds] using hidm
  obtain ⟨hallc, _, _⟩ := schemaEx env univ media hcl
    (missing univ media emptyFactory) emptyFactory le_rfl
  obtain ⟨n, ⟨ref, vec, f'⟩, hc⟩ := hallc (.struct id) hids
  have hid2 : structId? (deferencePointer (.struct id)) = some id := rfl
  obtain ⟨hvec, e, hlook, heref, hwfc⟩ :=
    collectSchema_struct_post env media (.struct id) emptyFactory n
      ref vec f' id hc hid2
  have hwfe : FactoryWF env emptyFactory := by
    intro i m e0 h
    exact absurd h (by simp [lookupSeen, emptyFactory])
  obtain ⟨hname, hrefwf⟩ := hwfc hwfe
  have hrefval : ref = refOfStruct env media id := by
    unfold refOfStruct
    rw [← hname, ← hrefwf]
    exact heref.symm
  have hvec' : vec = false := by rw [hvec]; rfl
  refine ⟨n, f', ?_, ?_⟩
  · rw [← hrefval, ← hvec']
    exact hc
  · rw [hlook]
    simp only [Option.map_some']
    rw [heref, hrefval]

/-- Witness for C1: a concrete self-referential struct (a "Node" whose
"Child" field is a slice of its own type); the hypotheses are discharged
by evaluation. -/
theorem collectSchema_cycle_terminates_witness :
    ∃ n f', collectSchema
        (fun _ => ⟨"Node", "app/model",
          [⟨"Child", false, [("json", "child")], .slice (.struct 0), false⟩]⟩)
        jsonMedia (.struct 0) emptyFactory n =
        some (refOfStruct
          (fun _ => ⟨"Node", "app/model",
            [⟨"Child", false, [("json", "child")], .slice (.struct 0), false⟩]⟩)
          jsonMedia 0, false, f') ∧
      (lookupSeen f' 0 jsonMedia).map SeenEntry.ref
        = some (refOfStruct
          (fun _ => ⟨"Node", "app/model",
            [⟨"Child", false, [("json", "child")], .slice (.struct 0), false⟩]⟩)
          jsonMedia 0) :=
  collectSchema_cycle_terminates
    (fun _ => ⟨"Node", "app/model",
      [⟨"Child", false, [("json", "child")], .slice (.struct 0), false⟩]⟩)
    [0] jsonMedia 0 (by decide) (by decide) (by decide)

end Swagger
